import Mathlib

/-!
Verification of `ravatar` (`src/main.c`).

A shallow embedding of the bitmap construction and encoding code of `main.c`,
followed by theorems about it.

Conventions of the embedding.

* `uint32_t` values are natural numbers below `2 ^ 32`; every unsigned operation
  of the source is followed by an explicit reduction modulo `2 ^ 32` (`u32`).
* `int32_t` / `int` values are integers; a signed operation whose mathematical
  result leaves the 32-bit range is undefined behaviour in C and is modelled by
  `none`.
* `unsigned char` values are natural numbers below `256`.
* A pointer to a `struct bitmap` is an `Option bitmap` (`none` is `NULL`), and
  the memory block behind `p->data` is an `Option (List Nat)` (`none` is `NULL`,
  `some d` is a block of exactly `d.length` accessible bytes).
* A function that may run into undefined behaviour (a store outside the
  allocated block, signed overflow) returns an `Option`; `none` stands for the
  undefined execution.
-/

namespace Ravatar

/-! ## Data model -/

/-- Error codes of the program (`enum report`, `main.c` lines 25-31). -/
inductive report where
  | REPORT_NULL
  | REPORT_ARGS
  | REPORT_READ
  | REPORT_ALLOC
  | REPORT_OPEN
  | REPORT_CLOSE
  deriving DecidableEq

/-- Number of bits of a byte (`CHAR_BIT` of `limits.h`); the program assumes 8. -/
def CHAR_BIT : Nat := 8

/-- Largest `unsigned char` (`UCHAR_MAX` of `limits.h`). -/
def UCHAR_MAX : Nat := 255

/-- Reduction of a natural number to the range of `uint32_t`. -/
def u32 (n : Nat) : Nat := n % 2 ^ 32

/-- Conversion of a `uint32_t` value to `int32_t` (two's complement). -/
def toInt32 (n : Nat) : Int :=
  if n % 2 ^ 32 < 2 ^ 31 then ((n % 2 ^ 32 : Nat) : Int) else ((n % 2 ^ 32 : Nat) : Int) - 2 ^ 32

/-- Conversion of a signed value to `uint32_t` (the cast `(uint32_t)v`). -/
def toUInt32 (i : Int) : Nat := (i % 2 ^ 32).toNat

/-- Result of a signed `int` operation: `none` when it overflows 32 bits. -/
def int32? (i : Int) : Option Int :=
  if -(2 ^ 31) ≤ i ∧ i < 2 ^ 31 then some i else none

/-- The bitmap data structure (`struct bitmap`, `main.c` lines 58-76). -/
structure bitmap where
  ftype : List Nat
  fsize : Nat
  freserved : Nat
  foffset : Nat
  iheadersize : Nat
  iwidth : Int
  iheight : Int
  iplanes : Nat
  idepth : Nat
  icompression : Nat
  isize : Nat
  ihorizontal : Int
  ivertical : Int
  icolors : Nat
  iimpcolors : Nat
  data : Option (List Nat)
  deriving DecidableEq

/-- Macro `BMP_CONVERT(p, n)` = `(n * ((p) / CHAR_BIT))` where `n` is a `uint32_t`
(lines 96-97): the product is taken in unsigned 32-bit arithmetic. -/
def BMP_CONVERT (p n : Nat) : Nat := u32 (n * (p / CHAR_BIT))

/-- Macro `BMP_ROUND(n)` = `(((n + 3) / 4) * 4)` where `n` is a `uint32_t`
(lines 102-103), in unsigned 32-bit arithmetic. -/
def BMP_ROUND (n : Nat) : Nat := u32 (u32 (n + 3) / 4 * 4)

/-- Macro `BMP_CONVERT(p, n)` where `n` is the signed `p->iwidth`: the product is
taken in `int`; `none` on signed overflow. -/
def BMP_CONVERT_int (p : Nat) (n : Int) : Option Int :=
  int32? (n * ((p / CHAR_BIT : Nat) : Int))

/-- Macro `BMP_ROUND(n)` on an `int`: the division truncates toward zero; `none`
on signed overflow. -/
def BMP_ROUND_int (n : Int) : Option Int :=
  (int32? (n + 3)).bind fun a => int32? (Int.tdiv a 4 * 4)

/-! ## Creation -/

/-- Function `create` (lines 112-153). The argument `p` is the pointer received
(its pointee is overwritten), `mallocOk` tells whether `malloc(p->isize)` returns
a block. The result is the report and the structure behind `p` afterwards. -/
def create (p : Option bitmap) (width height : Nat) (mallocOk : Bool) :
    report × Option bitmap :=
  match p with
  | some _ =>
    let idepth := 0x18
    let isize := u32 (height * BMP_ROUND (BMP_CONVERT idepth width))
    let foffset := 0x36
    let b : bitmap :=
      { ftype := [0x42, 0x4D]
        freserved := 0x00
        foffset := foffset
        idepth := idepth
        isize := isize
        fsize := u32 (foffset + isize)
        iheadersize := 0x28
        iwidth := toInt32 width
        iheight := toInt32 height
        iplanes := 0x01
        icompression := 0x00
        ihorizontal := 0x00
        ivertical := 0x00
        icolors := 0x00
        iimpcolors := 0x00
        data := if mallocOk then some (List.replicate isize 0xff) else none }
    (if mallocOk then report.REPORT_NULL else report.REPORT_ALLOC, some b)
  | none => (report.REPORT_ARGS, none)

/-! ## Output stream and `save` -/

/-- An output stream (`FILE *`): the bytes transferred so far, the number of
`fwrite` calls issued so far, and for each call number whether that call is cut
short (`some m`: at most `m` bytes go through) or not (`none`). -/
structure FILE where
  bytes : List Nat
  calls : Nat
  short : Nat → Option Nat

/-- Library function `fwrite(c, n, 1, f)`: returns the number of items written
(0 or 1). As the C standard prescribes (C11 7.21.8.2: if size or nmemb is zero,
`fwrite` returns zero and the state of the stream remains unchanged), a request
of size 0 returns 0 and transfers nothing; the call is still counted in `calls`. -/
def fwrite (c : List Nat) (n : Nat) (f : FILE) : Nat × FILE :=
  if n = 0 then (0, { f with calls := f.calls + 1 })
  else
    match f.short f.calls with
    | none => (1, { f with bytes := f.bytes ++ c.take n, calls := f.calls + 1 })
    | some m =>
      if m < n then (0, { f with bytes := f.bytes ++ c.take m, calls := f.calls + 1 })
      else (1, { f with bytes := f.bytes ++ c.take n, calls := f.calls + 1 })

/-- Macro `BMP_WRITE(c, n, f, l)` (lines 82-90): the Boolean tells whether the
jump to the label is taken (with `res = REPORT_READ`). -/
def BMP_WRITE (c : List Nat) (n : Nat) (f : FILE) : Bool × FILE :=
  let r := fwrite c n f
  (decide (r.1 < 1), r.2)

/-- A run of consecutive `BMP_WRITE` statements: stops at the first jump. -/
def writeFields : List (List Nat × Nat) → FILE → Bool × FILE
  | [], f => (false, f)
  | (c, n) :: rest, f =>
    match BMP_WRITE c n f with
    | (true, g) => (true, g)
    | (false, g) => writeFields rest g

/-- Object representation of an unsigned value on `k` bytes, little-endian (the
program assumes a little-endian architecture, line 301). -/
def bytesLE : Nat → Nat → List Nat
  | 0, _ => []
  | k + 1, n => n % 256 :: bytesLE k (n / 256)

/-- The fifteen header writes of `save` (lines 170-184), each with its `sizeof`. -/
def headerFields (b : bitmap) : List (List Nat × Nat) :=
  [ (b.ftype, 2),
    (bytesLE 4 b.fsize, 4),
    (bytesLE 4 b.freserved, 4),
    (bytesLE 4 b.foffset, 4),
    (bytesLE 4 b.iheadersize, 4),
    (bytesLE 4 (toUInt32 b.iwidth), 4),
    (bytesLE 4 (toUInt32 b.iheight), 4),
    (bytesLE 2 b.iplanes, 2),
    (bytesLE 2 b.idepth, 2),
    (bytesLE 4 b.icompression, 4),
    (bytesLE 4 b.isize, 4),
    (bytesLE 4 (toUInt32 b.ihorizontal), 4),
    (bytesLE 4 (toUInt32 b.ivertical), 4),
    (bytesLE 4 b.icolors, 4),
    (bytesLE 4 b.iimpcolors, 4) ]

/-- Function `save` (lines 163-195). Reading `p->isize` bytes from a block that
is `NULL` or shorter is undefined (`none`); `free(p->data)` leaves no block. -/
def save (p : Option bitmap) (dst : Option FILE) :
    Option (report × Option bitmap × Option FILE) :=
  match p, dst with
  | some b, some f =>
    match writeFields (headerFields b) f with
    | (true, g) => some (report.REPORT_READ, some b, some g)
    | (false, g) =>
      match b.data with
      | none => none
      | some d =>
        if d.length < b.isize then none
        else
          match BMP_WRITE d b.isize g with
          | (true, k) => some (report.REPORT_READ, some b, some k)
          | (false, k) => some (report.REPORT_NULL, some { b with data := none }, some k)
  | _, _ => some (report.REPORT_ARGS, p, dst)

/-! ## Pixel and tile writes -/

/-- Function `putpixel` (lines 204-230). The stride is computed in `int` from the
signed `p->iwidth`, converted to `uint32_t` for the product with `y`; the three
stores at `dst[0..2]` must fall inside the block behind `p->data`. -/
def putpixel (p : Option bitmap) (x y red green blue : Nat) :
    Option (report × Option bitmap) :=
  match p with
  | none => some (report.REPORT_ARGS, none)
  | some b =>
    if x < toUInt32 b.iwidth ∧ y < toUInt32 b.iheight then
      match (BMP_CONVERT_int b.idepth b.iwidth).bind BMP_ROUND_int with
      | none => none
      | some s =>
        let off := BMP_CONVERT b.idepth x + u32 (toUInt32 s * y)
        match b.data with
        | none => none
        | some d =>
          if off + 2 < d.length then
            some (report.REPORT_NULL,
              some { b with data := some (((d.set off blue).set (off + 1) green).set (off + 2) red) })
          else none
    else some (report.REPORT_ARGS, some b)

/-- A loop `for (i = 0; i < n; i++) body` over a `uint32_t` counter, threading
the state and stopping on undefined behaviour. -/
def forLoop {σ : Type} (n : Nat) (body : Nat → σ → Option σ) (s : σ) : Option σ :=
  (List.range n).foldlM (fun st i => body i st) s

/-- Function `draw` (lines 239-268): `x + i` and `y + j` are `uint32_t` sums; the
state threaded through the loops is `res` and the structure behind `p`. -/
def draw (p : Option bitmap) (x y size red green blue : Nat) :
    Option (report × Option bitmap) :=
  match p with
  | some _ =>
    forLoop size (fun i st =>
      forLoop size (fun j st2 =>
        putpixel st2.2 (u32 (x + i)) (u32 (y + j)) red green blue) st)
      (report.REPORT_NULL, p)
  | none => some (report.REPORT_ARGS, none)

/-! ## Saturated addition -/

/-- Function `add` (lines 275-286): the sum is truncated to `unsigned char`. -/
def add (op1 op2 : Nat) : Nat :=
  let res := (op1 + op2) % (UCHAR_MAX + 1)
  if res < op1 ∨ res < op2 then UCHAR_MAX else res

/-! ## The program -/

/-- Outcome of an execution that goes through the loops of `main`: a result, an
undefined execution (undefined behaviour in C), or a loop that was still running
when the fuel of the embedding ran out. -/
inductive Exec (α : Type) where
  | done (a : α)
  | undefined
  | outOfFuel

/-- An arbitrary structure standing for the uninitialised object whose address
`main` passes to `create` (`struct bitmap src;`, line 331). -/
def blank : bitmap :=
  { ftype := [0, 0], fsize := 0, freserved := 0, foffset := 0, iheadersize := 0,
    iwidth := 0, iheight := 0, iplanes := 0, idepth := 0, icompression := 0,
    isize := 0, ihorizontal := 0, ivertical := 0, icolors := 0, iimpcolors := 0,
    data := none }

/-- Exit status `EXIT_SUCCESS` of `stdlib.h`. -/
def EXIT_SUCCESS : Nat := 0

/-- Exit status `EXIT_FAILURE` of `stdlib.h`. -/
def EXIT_FAILURE : Nat := 1

/-- Numerical value of an enumerator of `enum report` (lines 25-31). -/
def report.toNat : report → Nat
  | report.REPORT_NULL => 0
  | report.REPORT_ARGS => 1
  | report.REPORT_READ => 2
  | report.REPORT_ALLOC => 3
  | report.REPORT_OPEN => 4
  | report.REPORT_CLOSE => 5

/-- Enumerator `REPORT_MASK`, the number of reports. -/
def REPORT_MASK : Nat := 6

/-- Function `notice` (lines 292-298): the error stream is the list of the reports
whose description has been printed. -/
def notice (res : report) (err : List report) : List report :=
  if 0 < res.toNat ∧ res.toNat < REPORT_MASK then err ++ [res] else err

/-- Inner loop of `main` (lines 343-355), `for (j = ...; j < height; j += square)`,
from the current value of `j`. The state is the number of `rand()` calls made so
far and the structure `src`; `rnd n` is the value of the `n`-th call. The report
returned is the one that takes the `goto exit`, or `REPORT_NULL` when the loop
runs to its end. `rand() % maxvar` with `maxvar = 0` and a signed overflow of
`j += square` are undefined. -/
def tileRow (rnd : Nat → Nat) (height square : Int) (maxvar red green blue : Nat) (i : Int) :
    Nat → Int → Nat × Option bitmap → Exec (report × Nat × Option bitmap)
  | 0, _, _ => Exec.outOfFuel
  | fuel + 1, j, (n, src) =>
    if j < height then
      if maxvar = 0 then Exec.undefined
      else
        let var := rnd n % maxvar % (UCHAR_MAX + 1)
        match draw src (toUInt32 i) (toUInt32 j) (toUInt32 square)
            (add red var) (add blue var) (add green var) with
        | none => Exec.undefined
        | some (error, src2) =>
          if error ≠ report.REPORT_NULL then Exec.done (error, n + 1, src2)
          else
            match int32? (j + square) with
            | none => Exec.undefined
            | some j2 =>
              tileRow rnd height square maxvar red green blue i fuel j2 (n + 1, src2)
    else Exec.done (report.REPORT_NULL, n, src)

/-- Outer loop of `main` (lines 341-356), `for (i = ...; i < width; i += square)`,
from the current value of `i`. -/
def tileLoop (rnd : Nat → Nat) (width height square : Int) (maxvar red green blue : Nat) :
    Nat → Int → Nat × Option bitmap → Exec (report × Nat × Option bitmap)
  | 0, _, _ => Exec.outOfFuel
  | fuel + 1, i, st =>
    if i < width then
      match tileRow rnd height square maxvar red green blue i fuel 0 st with
      | Exec.done (error, n, src2) =>
        if error ≠ report.REPORT_NULL then Exec.done (error, n, src2)
        else
          match int32? (i + square) with
          | none => Exec.undefined
          | some i2 => tileLoop rnd width height square maxvar red green blue fuel i2 (n, src2)
      | Exec.undefined => Exec.undefined
      | Exec.outOfFuel => Exec.outOfFuel
    else Exec.done (report.REPORT_NULL, st.1, st.2)

/-- Body of `main` after the arguments are read (lines 327-385). `dst` is the
result of `fopen`, `mallocOk` and `fcloseOk` tell whether `malloc` and `fclose`
succeed. The result is the exit status, the output stream and the error stream. -/
def generate (fuel : Nat) (width height square : Int) (maxvar : Nat) (rnd : Nat → Nat)
    (dst : Option FILE) (mallocOk fcloseOk : Bool) : Exec (Nat × Option FILE × List report) :=
  match dst with
  | some f =>
    let c := create (some blank) (toUInt32 width) (toUInt32 height) mallocOk
    if c.1 = report.REPORT_NULL then
      let red := rnd 0 % (UCHAR_MAX + 1)
      let green := rnd 1 % (UCHAR_MAX + 1)
      let blue := rnd 2 % (UCHAR_MAX + 1)
      match tileLoop rnd width height square maxvar red green blue fuel 0 (3, c.2) with
      | Exec.done (error, _, src2) =>
        if error ≠ report.REPORT_NULL then Exec.done (EXIT_FAILURE, some f, notice error [])
        else
          match save src2 (some f) with
          | none => Exec.undefined
          | some (error2, _, g) =>
            if error2 = report.REPORT_NULL then
              if fcloseOk then Exec.done (EXIT_SUCCESS, g, [])
              else Exec.done (EXIT_FAILURE, g, notice report.REPORT_CLOSE [])
            else Exec.done (EXIT_FAILURE, g, notice error2 [])
      | Exec.undefined => Exec.undefined
      | Exec.outOfFuel => Exec.outOfFuel
    else Exec.done (EXIT_FAILURE, some f, notice c.1 [])
  | none => Exec.done (EXIT_FAILURE, none, notice report.REPORT_OPEN [])

/-- Function `main` (lines 307-386). `args` holds the values that `atoi` returns
for `argv[2..5]` when `argc > 5`; otherwise the defaults 100, 100, 10, 30 are
used. `maxvar` is an `unsigned char`. -/
def main (fuel : Nat) (args : Option (Int × Int × Int × Int)) (rnd : Nat → Nat)
    (dst : Option FILE) (mallocOk fcloseOk : Bool) : Exec (Nat × Option FILE × List report) :=
  match args with
  | some (a2, a3, a4, a5) =>
    generate fuel (toInt32 (toUInt32 a2)) (toInt32 (toUInt32 a3)) (toInt32 (toUInt32 a4))
      (a5 % 256).toNat rnd dst mallocOk fcloseOk
  | none => generate fuel 100 100 10 30 rnd dst mallocOk fcloseOk

/-! ## Auxiliary definitions used in the statements -/

/-- Row stride as `create` computes it (line 125):
`BMP_ROUND(BMP_CONVERT(p->idepth, width))` with `p->idepth = 0x18`. -/
def stride (width : Nat) : Nat := BMP_ROUND (BMP_CONVERT 0x18 width)

/-- The structure that `create` leaves for width 2 and height 2 (stride 8, a
block of 16 bytes `0xFF`). -/
def canvas2 : bitmap :=
  { ftype := [0x42, 0x4D], fsize := 70, freserved := 0, foffset := 0x36,
    iheadersize := 0x28, iwidth := 2, iheight := 2, iplanes := 1, idepth := 0x18,
    icompression := 0, isize := 16, ihorizontal := 0, ivertical := 0, icolors := 0,
    iimpcolors := 0, data := some (List.replicate 16 0xff) }

/-- A stream on which no `fwrite` call is ever cut short. -/
def openStream : FILE := { bytes := [], calls := 0, short := fun _ => none }

/-- The cells that `draw` visits, in the order of its two loops (`i` outer, `j`
inner), each as the pair of arguments `(x + i, y + j)` handed to `putpixel`. -/
def cells (x y size : Nat) : List (Nat × Nat) :=
  (List.range size).flatMap fun i => (List.range size).map fun j => (u32 (x + i), u32 (y + j))

/-- Successive `putpixel` calls on a list of cells, each call overwriting `res`. -/
def paint (red green blue : Nat) (cs : List (Nat × Nat)) (st : report × Option bitmap) :
    Option (report × Option bitmap) :=
  cs.foldlM (fun st c => putpixel st.2 c.1 c.2 red green blue) st

/-- The byte that `putpixel` stores at `dst[k]`: blue, green, red for `k = 0, 1, 2`. -/
def chan (red green blue k : Nat) : Nat :=
  if k = 0 then blue else if k = 1 then green else red

/-- A structure laid out as `create width height` leaves it when no 32-bit
computation wraps: 24 bits per pixel, the dimensions stored, and a pixel-data
block of `height * stride width` bytes. -/
def Canvas (w h : Nat) (b : bitmap) : Prop :=
  b.idepth = 0x18 ∧ b.iwidth = (w : Int) ∧ toUInt32 b.iheight = h ∧
    3 * w + 3 < 2 ^ 31 ∧ h * stride w < 2 ^ 32 ∧
    b.data.map List.length = some (h * stride w)

/-- The value of `res` after `putpixel` calls on the cells `cs` of a `w` by `h`
canvas, starting from `rep0`: each call overwrites it. -/
def lastReport (w h : Nat) (cs : List (Nat × Nat)) (rep0 : report) : report :=
  cs.foldl (fun _ c => if c.1 < w ∧ c.2 < h then report.REPORT_NULL else report.REPORT_ARGS) rep0

/-- A stream on which the call number `k` (counted from 1) lets only `m` bytes
through, and no other call is cut short. -/
def cutStream (k m : Nat) : FILE :=
  { bytes := [], calls := 0, short := fun i => if i + 1 = k then some m else none }

/-- The sixteen writes of `save` in order: the header fields, then the pixel data
`d` with the size `p->isize`. -/
def saveFields (b : bitmap) (d : List Nat) : List (List Nat × Nat) :=
  headerFields b ++ [(d, b.isize)]

/-- A call of `putpixel` or of `draw` with its arguments. -/
inductive Op where
  | putpixel (x y red green blue : Nat)
  | draw (x y size red green blue : Nat)

/-- The call `op` on the structure behind `p`. -/
def applyOp (p : Option bitmap) : Op → Option (report × Option bitmap)
  | Op.putpixel x y red green blue => putpixel p x y red green blue
  | Op.draw x y size red green blue => draw p x y size red green blue

/-- A finite sequence of `putpixel` and `draw` calls on the same structure, the
reports being dropped. -/
def runOps (ops : List Op) (p : Option bitmap) : Option (Option bitmap) :=
  ops.foldlM (fun q op => (applyOp q op).map Prod.snd) p

/-- The origins of the tiles that the loops of `main` visit, in the order of the
loops: `i = 0, s, 2 s, ...` below the width (outer loop) and, for each of them,
`j = 0, s, 2 s, ...` below the height (inner loop). -/
def tiles (w h s : Nat) : List (Nat × Nat) :=
  (List.range ((w + s - 1) / s)).flatMap fun a =>
    (List.range ((h + s - 1) / s)).map fun b => (s * a, s * b)

/-- The body of the inner loop of `main` (lines 345-354) run on a list of tile
origins in order: each step makes one `rand()` call and one `draw` call, and the
run stops at the first `draw` that does not return `REPORT_NULL` (the `goto exit`).
The state is the number of `rand()` calls made so far and the structure `src`.
It is compared with the loops for `maxvar ≥ 1` only (`tileRow` is undefined for
`maxvar = 0`). -/
def runTiles (rnd : Nat → Nat) (maxvar red green blue s : Nat) :
    List (Nat × Nat) → Nat × Option bitmap → Option (report × Nat × Option bitmap)
  | [], (n, src) => some (report.REPORT_NULL, n, src)
  | t :: ts, (n, src) =>
    match draw src t.1 t.2 s (add red (rnd n % maxvar % (UCHAR_MAX + 1)))
        (add blue (rnd n % maxvar % (UCHAR_MAX + 1)))
        (add green (rnd n % maxvar % (UCHAR_MAX + 1))) with
    | none => none
    | some (error, src2) =>
      if error ≠ report.REPORT_NULL then some (error, n + 1, src2)
      else runTiles rnd maxvar red green blue s ts (n + 1, src2)

/-! ## Arithmetic of the stride -/

theorem stride_eq_of_small (w : Nat) (hw : 3 * w + 3 < 2 ^ 32) :
    stride w = (3 * w + 3) / 4 * 4 := by
  have h0 : (24 : Nat) / 8 = 3 := by decide
  have h1 : w * 3 % 2 ^ 32 = w * 3 := Nat.mod_eq_of_lt (by omega)
  have h2 : (w * 3 + 3) % 2 ^ 32 = w * 3 + 3 := Nat.mod_eq_of_lt (by omega)
  have h3 : (w * 3 + 3) / 4 * 4 % 2 ^ 32 = (w * 3 + 3) / 4 * 4 :=
    Nat.mod_eq_of_lt (by omega)
  simp only [stride, BMP_ROUND, BMP_CONVERT, u32, CHAR_BIT, h0, h1, h2, h3]
  rw [Nat.mul_comm w 3]

/-- Claim C4 fails as stated: for the width 1431655765 the product `3 * w` is
`2 ^ 32 - 1`, the sum `3 * w + 3` wraps to 2 and the stride computed is 0, which
is below `3 * w`. -/
theorem C4_stride_counterexample :
    0 < 1431655765 ∧ 1431655765 < 2 ^ 32 ∧
      BMP_ROUND (BMP_CONVERT 24 1431655765) = 0 ∧
      ¬ (3 * 1431655765 ≤ BMP_ROUND (BMP_CONVERT 24 1431655765)) := by
  decide

/-- Claim C4, amended: for every width `w > 0` with `3 * w + 3 < 2 ^ 32`, the
stride computed by `BMP_ROUND(BMP_CONVERT(24, w))` is `4 * ceil(3 * w / 4)`, is at
least `3 * w`, is a multiple of 4 and is below `3 * w + 4`. -/
theorem C4_stride_formula (w : Nat) (_hpos : 0 < w) (hw : 3 * w + 3 < 2 ^ 32) :
    BMP_ROUND (BMP_CONVERT 24 w) = 4 * ⌈((3 * w : ℕ) : ℚ) / 4⌉₊ ∧
      3 * w ≤ BMP_ROUND (BMP_CONVERT 24 w) ∧
      BMP_ROUND (BMP_CONVERT 24 w) % 4 = 0 ∧
      BMP_ROUND (BMP_CONVERT 24 w) < 3 * w + 4 := by
  have hs : BMP_ROUND (BMP_CONVERT 24 w) = (3 * w + 3) / 4 * 4 := stride_eq_of_small w hw
  have hceil : ⌈((3 * w : ℕ) : ℚ) / 4⌉₊ = (3 * w + 3) / 4 := by
    apply le_antisymm
    · rw [Nat.ceil_le, div_le_iff₀ (by norm_num : (0 : ℚ) < 4)]
      have : 3 * w ≤ (3 * w + 3) / 4 * 4 := by omega
      exact_mod_cast this
    · have h1 : ((3 * w : ℕ) : ℚ) / 4 ≤ (⌈((3 * w : ℕ) : ℚ) / 4⌉₊ : ℚ) := Nat.le_ceil _
      rw [div_le_iff₀ (by norm_num : (0 : ℚ) < 4)] at h1
      have h2 : 3 * w ≤ ⌈((3 * w : ℕ) : ℚ) / 4⌉₊ * 4 := by exact_mod_cast h1
      omega
  rw [hceil, hs]
  refine ⟨by omega, by omega, by omega, by omega⟩

theorem C4_stride_formula_witness :
    (0 < 100 ∧ 3 * 100 + 3 < 2 ^ 32) ∧
      BMP_ROUND (BMP_CONVERT 24 100) = 4 * ⌈((3 * 100 : ℕ) : ℚ) / 4⌉₊ ∧
      3 * 100 ≤ BMP_ROUND (BMP_CONVERT 24 100) ∧
      BMP_ROUND (BMP_CONVERT 24 100) % 4 = 0 ∧
      BMP_ROUND (BMP_CONVERT 24 100) < 3 * 100 + 4 :=
  ⟨by decide, C4_stride_formula 100 (by decide) (by decide)⟩

/-! ## Conversions between `uint32_t` and `int32_t` -/

theorem toUInt32_toInt32 (n : Nat) (h : n < 2 ^ 32) : toUInt32 (toInt32 n) = n := by
  have h1 : n % 2 ^ 32 = n := Nat.mod_eq_of_lt h
  unfold toUInt32 toInt32
  rw [h1]
  split <;> omega

theorem toUInt32_natCast (n : Nat) (h : n < 2 ^ 32) : toUInt32 (n : Int) = n := by
  unfold toUInt32
  omega

theorem toInt32_of_small (n : Nat) (h : n < 2 ^ 31) : toInt32 n = (n : Int) := by
  have h1 : n % 2 ^ 32 = n := Nat.mod_eq_of_lt (by omega)
  unfold toInt32
  rw [h1, if_pos h]

/-! ## `create` -/

theorem create_some (b0 : bitmap) (w h : Nat) (ok : Bool) :
    create (some b0) w h ok =
      (if ok then report.REPORT_NULL else report.REPORT_ALLOC,
        some
          { ftype := [0x42, 0x4D], fsize := u32 (0x36 + u32 (h * stride w)), freserved := 0,
            foffset := 0x36, iheadersize := 0x28, iwidth := toInt32 w, iheight := toInt32 h,
            iplanes := 1, idepth := 0x18, icompression := 0, isize := u32 (h * stride w),
            ihorizontal := 0, ivertical := 0, icolors := 0, iimpcolors := 0,
            data := if ok then some (List.replicate (u32 (h * stride w)) 0xff) else none }) :=
  rfl

/-- Claim C7 fails as stated: `create` with width 1 and height `2 ^ 30` succeeds,
the stride is 4 and `stride * height = 2 ^ 32`, but the size computed in 32 bits
is 0 and the block allocated has no byte at all. -/
theorem C7_create_length_counterexample :
    (create (some blank) 1 1073741824 true).1 = report.REPORT_NULL ∧
      ((create (some blank) 1 1073741824 true).2.bind bitmap.data).map List.length = some 0 ∧
      stride 1 * 1073741824 = 4294967296 ∧
      ¬ (((create (some blank) 1 1073741824 true).2.bind bitmap.data).map List.length
          = some (stride 1 * 1073741824)) := by
  decide

/-- Claim C7, amended: when allocation succeeds, `create` returns `REPORT_NULL`
with a pixel-data block of length `(stride width * height) mod 2 ^ 32` (so exactly
`stride width * height` when that product is below `2 ^ 32`), every byte of which
is `0xFF`; width and height are stored as signed 32-bit values whose unsigned
reading is the value given (the value itself when it is below `2 ^ 31`). -/
theorem C7_create_block (b0 : bitmap) (w h : Nat) (hw : w < 2 ^ 32) (hh : h < 2 ^ 32) :
    ∃ b d, create (some b0) w h true = (report.REPORT_NULL, some b) ∧
      b.data = some d ∧
      d.length = (stride w * h) % 2 ^ 32 ∧
      (stride w * h < 2 ^ 32 → d.length = stride w * h) ∧
      (∀ v ∈ d, v = 0xFF) ∧
      toUInt32 b.iwidth = w ∧ toUInt32 b.iheight = h ∧
      (w < 2 ^ 31 → b.iwidth = (w : Int)) ∧ (h < 2 ^ 31 → b.iheight = (h : Int)) := by
  refine ⟨_, _, create_some b0 w h true, rfl, ?_, ?_, ?_, ?_, ?_, ?_, ?_⟩
  · simp [u32, Nat.mul_comm]
  · intro hlt
    rw [Nat.mul_comm] at hlt
    show (List.replicate (u32 (h * stride w)) 0xff).length = stride w * h
    rw [List.length_replicate, u32, Nat.mod_eq_of_lt hlt, Nat.mul_comm]
  · intro v hv
    exact (List.mem_replicate.mp hv).2
  · exact toUInt32_toInt32 w hw
  · exact toUInt32_toInt32 h hh
  · exact toInt32_of_small w
  · exact toInt32_of_small h

theorem C7_create_block_witness :
    ∃ b d, create (some blank) 3 2 true = (report.REPORT_NULL, some b) ∧
      b.data = some d ∧
      d.length = (stride 3 * 2) % 2 ^ 32 ∧
      (stride 3 * 2 < 2 ^ 32 → d.length = stride 3 * 2) ∧
      (∀ v ∈ d, v = 0xFF) ∧
      toUInt32 b.iwidth = 3 ∧ toUInt32 b.iheight = 2 ∧
      (3 < 2 ^ 31 → b.iwidth = ((3 : Nat) : Int)) ∧ (2 < 2 ^ 31 → b.iheight = ((2 : Nat) : Int)) :=
  C7_create_block blank 3 2 (by decide) (by decide)

/-! ## `save` -/

theorem fwrite_full (c : List Nat) (n : Nat) (f : FILE) (hn : n ≠ 0)
    (hf : ∀ i, f.short i = none) :
    fwrite c n f = (1, { f with bytes := f.bytes ++ c.take n, calls := f.calls + 1 }) := by
  unfold fwrite
  rw [if_neg hn, hf]

theorem writeFields_full (fs : List (List Nat × Nat)) (f : FILE)
    (hfs : ∀ cn ∈ fs, cn.2 ≠ 0) (hf : ∀ i, f.short i = none) :
    writeFields fs f =
      (false, { f with bytes := f.bytes ++ (fs.map fun cn => cn.1.take cn.2).flatten,
                       calls := f.calls + fs.length }) := by
  induction fs generalizing f with
  | nil => simp [writeFields]
  | cons cn rest ih =>
    obtain ⟨c, n⟩ := cn
    have hn : n ≠ 0 := hfs (c, n) (List.mem_cons_self _ _)
    have hrest : ∀ cn ∈ rest, cn.2 ≠ 0 := fun cn hcn => hfs cn (List.mem_cons_of_mem _ hcn)
    simp only [writeFields, BMP_WRITE, fwrite_full c n f hn hf, Nat.lt_irrefl, decide_False]
    rw [ih _ hrest (by simpa using hf)]
    simp [Nat.add_comm, Nat.add_left_comm]

theorem headerFields_sizes (b : bitmap) : ∀ cn ∈ headerFields b, cn.2 ≠ 0 := by
  intro cn hcn
  simp only [headerFields, List.mem_cons, List.mem_singleton, List.not_mem_nil,
    or_false] at hcn
  rcases hcn with h | h | h | h | h | h | h | h | h | h | h | h | h | h | h <;>
    rw [h] <;> simp

theorem save_full (b : bitmap) (f : FILE) (d : List Nat) (hdata : b.data = some d)
    (hlen : d.length = b.isize) (hne : b.isize ≠ 0) (hf : ∀ i, f.short i = none) :
    save (some b) (some f) =
      some (report.REPORT_NULL, some { b with data := none },
        some { f with
          bytes := f.bytes ++ ((headerFields b).map fun cn => cn.1.take cn.2).flatten ++ d,
          calls := f.calls + 16 }) := by
  have htake : List.take b.isize d = d := by
    rw [← hlen]; exact List.take_length d
  simp only [save]
  rw [writeFields_full _ f (headerFields_sizes b) hf]
  simp only [hdata]
  rw [if_neg (by omega)]
  simp only [BMP_WRITE]
  rw [fwrite_full d _ _ hne (by simpa using hf)]
  simp only [Nat.lt_irrefl, decide_False, htake]
  rfl

/-- Claim C1 fails as stated: `create` with width 0 and height 0, and also with
width 1 and height `2 ^ 30` (where `4 * 2 ^ 30` wraps to 0), succeeds with an empty
pixel-data block when `malloc(0)` returns a block; `save` on a stream that accepts
every write then issues `fwrite(p->data, 0, 1, dst)`, which returns 0, and `save`
returns `REPORT_READ`. -/
theorem C1_save_counterexample :
    (create (some blank) 0 0 true).1 = report.REPORT_NULL ∧
      (save (create (some blank) 0 0 true).2 (some openStream)).map (fun r => r.1)
        = some report.REPORT_READ ∧
      (create (some blank) 1 1073741824 true).1 = report.REPORT_NULL ∧
      (save (create (some blank) 1 1073741824 true).2 (some openStream)).map (fun r => r.1)
        = some report.REPORT_READ := by
  decide

/-- Claim C1, amended: for every buffer produced by `create` whose pixel-data size
`isize` is not zero (whatever pixel data `d` of that size it holds) and every
output stream that accepts every write, `save` returns `REPORT_NULL` and appends
exactly: `'B','M'`; the file size; 0; `0x36`; `0x28`; width; height (4 bytes each,
little-endian); 1; 24 (2 bytes each); compression 0; the pixel-data size; four
4-byte zeros; then the pixel data unchanged. The header is 54 bytes long. -/
theorem C1_save_layout (b0 : bitmap) (w h : Nat) (f : FILE) (d : List Nat)
    (hw : w < 2 ^ 32) (hh : h < 2 ^ 32) (hf : ∀ i, f.short i = none)
    (hne : u32 (h * stride w) ≠ 0) (hd : d.length = u32 (h * stride w)) :
    ∃ b g hdr, create (some b0) w h true = (report.REPORT_NULL, some b) ∧
      b.data.map List.length = some (d).length ∧
      b.isize = u32 (h * stride w) ∧ b.fsize = u32 (0x36 + b.isize) ∧
      save (some { b with data := some (d) }) (some f)
        = some (report.REPORT_NULL, some { b with data := none }, some g) ∧
      hdr = [0x42, 0x4D] ++ bytesLE 4 b.fsize ++ bytesLE 4 0 ++ bytesLE 4 0x36 ++
          bytesLE 4 0x28 ++ bytesLE 4 w ++ bytesLE 4 h ++ bytesLE 2 1 ++ bytesLE 2 24 ++
          bytesLE 4 0 ++ bytesLE 4 b.isize ++ bytesLE 4 0 ++ bytesLE 4 0 ++ bytesLE 4 0 ++
          bytesLE 4 0 ∧
      g.bytes = (f).bytes ++ (hdr ++ d) ∧
      g.calls = (f).calls + 16 ∧
      hdr.length = 54 ∧
      hdr.take 2 = [0x42, 0x4D] ∧
      (hdr.drop 0x02).take 4 = bytesLE 4 b.fsize ∧
      (hdr.drop 0x06).take 4 = bytesLE 4 0 ∧
      (hdr.drop 0x0a).take 4 = bytesLE 4 0x36 ∧
      (hdr.drop 0x0e).take 4 = bytesLE 4 0x28 ∧
      (hdr.drop 0x12).take 4 = bytesLE 4 w ∧
      (hdr.drop 0x16).take 4 = bytesLE 4 h ∧
      (hdr.drop 0x1a).take 2 = bytesLE 2 1 ∧
      (hdr.drop 0x1c).take 2 = bytesLE 2 24 ∧
      (hdr.drop 0x1e).take 4 = bytesLE 4 0 ∧
      (hdr.drop 0x22).take 4 = bytesLE 4 b.isize ∧
      (hdr.drop 0x26).take 16 = bytesLE 4 0 ++ bytesLE 4 0 ++ bytesLE 4 0 ++ bytesLE 4 0 ∧
      (hdr ++ d).drop 0x36 = d := by
  have hz : toUInt32 0 = 0 := by decide
  refine ⟨_, _, _, create_some b0 w h true, ?_, rfl, rfl,
    save_full _ f d rfl hd hne hf, rfl, ?_, rfl, ?_⟩
  · simp [hd]
  · simp [headerFields, toUInt32_toInt32 w hw, toUInt32_toInt32 h hh, hz, bytesLE]
  · simp [bytesLE]

theorem C1_save_layout_witness :
    ∃ b g hdr, create (some blank) 1 1 true = (report.REPORT_NULL, some b) ∧
      b.data.map List.length = some ([1, 2, 3, 4]).length ∧
      b.isize = u32 (1 * stride 1) ∧ b.fsize = u32 (0x36 + b.isize) ∧
      save (some { b with data := some ([1, 2, 3, 4]) }) (some openStream)
        = some (report.REPORT_NULL, some { b with data := none }, some g) ∧
      hdr = [0x42, 0x4D] ++ bytesLE 4 b.fsize ++ bytesLE 4 0 ++ bytesLE 4 0x36 ++
          bytesLE 4 0x28 ++ bytesLE 4 1 ++ bytesLE 4 1 ++ bytesLE 2 1 ++ bytesLE 2 24 ++
          bytesLE 4 0 ++ bytesLE 4 b.isize ++ bytesLE 4 0 ++ bytesLE 4 0 ++ bytesLE 4 0 ++
          bytesLE 4 0 ∧
      g.bytes = (openStream).bytes ++ (hdr ++ [1, 2, 3, 4]) ∧
      g.calls = (openStream).calls + 16 ∧
      hdr.length = 54 ∧
      hdr.take 2 = [0x42, 0x4D] ∧
      (hdr.drop 0x02).take 4 = bytesLE 4 b.fsize ∧
      (hdr.drop 0x06).take 4 = bytesLE 4 0 ∧
      (hdr.drop 0x0a).take 4 = bytesLE 4 0x36 ∧
      (hdr.drop 0x0e).take 4 = bytesLE 4 0x28 ∧
      (hdr.drop 0x12).take 4 = bytesLE 4 1 ∧
      (hdr.drop 0x16).take 4 = bytesLE 4 1 ∧
      (hdr.drop 0x1a).take 2 = bytesLE 2 1 ∧
      (hdr.drop 0x1c).take 2 = bytesLE 2 24 ∧
      (hdr.drop 0x1e).take 4 = bytesLE 4 0 ∧
      (hdr.drop 0x22).take 4 = bytesLE 4 b.isize ∧
      (hdr.drop 0x26).take 16 = bytesLE 4 0 ++ bytesLE 4 0 ++ bytesLE 4 0 ++ bytesLE 4 0 ∧
      (hdr ++ [1, 2, 3, 4]).drop 0x36 = [1, 2, 3, 4] :=
  C1_save_layout blank 1 1 openStream [1, 2, 3, 4] (by decide) (by decide) (fun _ => rfl)
    (by decide) (by decide)

/-! ## `putpixel` -/

theorem putpixel_outside (b : bitmap) (x y red green blue : Nat)
    (h : toUInt32 b.iwidth ≤ x ∨ toUInt32 b.iheight ≤ y) :
    putpixel (some b) x y red green blue = some (report.REPORT_ARGS, some b) := by
  unfold putpixel
  simp only []
  rw [if_neg (by omega)]

theorem putpixel_inside_report (b : bitmap) (x y red green blue : Nat)
    (h : x < toUInt32 b.iwidth ∧ y < toUInt32 b.iheight) (st : Option bitmap) :
    putpixel (some b) x y red green blue ≠ some (report.REPORT_ARGS, st) := by
  unfold putpixel
  simp only []
  rw [if_pos h]
  split
  · simp
  · split
    · simp
    · split <;> simp

theorem putpixel_frame (b : bitmap) (x y red green blue : Nat) (rep : report)
    (st : Option bitmap) (h : putpixel (some b) x y red green blue = some (rep, st)) :
    ∃ c, st = some c ∧ { c with data := b.data } = b ∧
      c.data.map List.length = b.data.map List.length := by
  unfold putpixel at h
  simp only [] at h
  split at h
  · split at h
    · exact absurd h (by simp)
    · split at h
      · exact absurd h (by simp)
      · rename_i d hd
        split at h
        · simp only [Option.some.injEq, Prod.mk.injEq] at h
          refine ⟨_, h.2.symm, ?_, ?_⟩
          · simp [← hd]
          · simp [hd]
        · exact absurd h (by simp)
  · simp only [Option.some.injEq, Prod.mk.injEq] at h
    exact ⟨b, h.2.symm, rfl, rfl⟩

theorem signed_stride (w : Nat) (hw : 3 * w + 3 < 2 ^ 31) :
    (BMP_CONVERT_int 0x18 (w : Int)).bind BMP_ROUND_int = some ((stride w : Nat) : Int) := by
  have hs : stride w = (3 * w + 3) / 4 * 4 := stride_eq_of_small w (by omega)
  have h0 : ((0x18 / CHAR_BIT : Nat) : Int) = 3 := rfl
  have h1 : int32? ((w : Int) * 3) = some ((w : Int) * 3) := by
    unfold int32?
    rw [if_pos (by omega)]
  have h2 : int32? ((w : Int) * 3 + 3) = some ((w : Int) * 3 + 3) := by
    unfold int32?
    rw [if_pos (by omega)]
  have h3 : Int.tdiv ((w : Int) * 3 + 3) 4 = ((w : Int) * 3 + 3) / 4 :=
    Int.tdiv_eq_ediv (by omega) (by omega)
  have h4 : int32? (((w : Int) * 3 + 3) / 4 * 4) = some (((w : Int) * 3 + 3) / 4 * 4) := by
    unfold int32?
    rw [if_pos (by omega)]
  have h5 : (((w : Int) * 3 + 3) / 4 * 4) = (((3 * w + 3) / 4 * 4 : Nat) : Int) := by omega
  unfold BMP_CONVERT_int
  rw [h0, h1, Option.some_bind]
  unfold BMP_ROUND_int
  rw [h2, Option.some_bind, h3, h4, h5, hs]

theorem offset_decode (s cx cy o : Nat) (hs : 3 * cx + 2 < s) :
    (o / s = cy ∧ o % s / 3 = cx) ↔ (3 * cx + s * cy ≤ o ∧ o ≤ 3 * cx + s * cy + 2) := by
  constructor
  · rintro ⟨h1, h2⟩
    have h3 := Nat.div_add_mod o s
    rw [h1] at h3
    omega
  · rintro ⟨h1, h2⟩
    obtain ⟨k, rfl⟩ : ∃ k, o = (3 * cx + k) + s * cy := ⟨o - (3 * cx + s * cy), by omega⟩
    have hk : 3 * cx + k < s := by omega
    have hpos : 0 < s := by omega
    rw [Nat.add_mul_div_left _ _ hpos, Nat.add_mul_mod_self_left, Nat.div_eq_of_lt hk,
      Nat.mod_eq_of_lt hk]
    omega

theorem offset_channel (s cx cy o : Nat) (hs : 3 * cx + 2 < s)
    (h1 : 3 * cx + s * cy ≤ o) (h2 : o ≤ 3 * cx + s * cy + 2) :
    o % s % 3 = o - (3 * cx + s * cy) := by
  obtain ⟨k, rfl⟩ : ∃ k, o = (3 * cx + k) + s * cy := ⟨o - (3 * cx + s * cy), by omega⟩
  have hk : 3 * cx + k < s := by omega
  rw [Nat.add_mul_mod_self_left, Nat.mod_eq_of_lt hk]
  omega

theorem three_mul_lt_stride (w x : Nat) (hw : 3 * w + 3 < 2 ^ 31) (hx : x < w) :
    3 * x + 2 < stride w := by
  rw [stride_eq_of_small w (by omega)]
  omega

theorem row_end_le (s h y : Nat) (hy : y < h) : s * y + s ≤ h * s := by
  have h1 : s * (y + 1) ≤ s * h := Nat.mul_le_mul_left s hy
  rw [Nat.mul_comm h s]
  rw [Nat.mul_add, Nat.mul_one] at h1
  exact h1

/-- One `putpixel` call on a canvas: the report tells whether the cell is inside,
the header is kept, and the block changes exactly at the three bytes of the cell. -/
theorem putpixel_canvas (w h : Nat) (b : bitmap) (d : List Nat) (hc : Canvas w h b)
    (hd : b.data = some d) (x y red green blue : Nat) :
    ∃ e, putpixel (some b) x y red green blue
        = some (if x < w ∧ y < h then report.REPORT_NULL else report.REPORT_ARGS,
            some { b with data := some e }) ∧
      e.length = d.length ∧
      ∀ o, e[o]? =
        if x < w ∧ y < h ∧ o / stride w = y ∧ o % stride w / 3 = x
        then some (chan red green blue (o % stride w % 3)) else d[o]? := by
  obtain ⟨hdepth, hwid, hhei, hw, hsz, hlen⟩ := hc
  have hlen2 : d.length = h * stride w := by simpa [hd] using hlen
  have hwu : toUInt32 b.iwidth = w := by rw [hwid]; exact toUInt32_natCast w (by omega)
  by_cases hin : x < w ∧ y < h
  · obtain ⟨hx, hy⟩ := hin
    have hxs := three_mul_lt_stride w x hw hx
    have hrow := row_end_le (stride w) h y hy
    have hconv : BMP_CONVERT 0x18 x = 3 * x := by
      simp only [BMP_CONVERT, u32, CHAR_BIT]
      rw [Nat.mod_eq_of_lt (by omega)]
      omega
    have hmul : u32 (toUInt32 ((stride w : Nat) : Int) * y) = stride w * y := by
      rw [toUInt32_natCast _ (by omega)]
      exact Nat.mod_eq_of_lt (by omega)
    have hoff : 3 * x + stride w * y + 2 < d.length := by omega
    refine ⟨((d.set (3 * x + stride w * y) blue).set (3 * x + stride w * y + 1) green).set
      (3 * x + stride w * y + 2) red, ?_, by simp, ?_⟩
    · unfold putpixel
      have hwu2 : toUInt32 (w : Int) = w := toUInt32_natCast w (by omega)
      simp only [hwu2, hhei, hdepth, hwid, signed_stride w hw, hd, hconv, hmul]
      rw [if_pos ⟨hx, hy⟩, if_pos hoff, if_pos ⟨hx, hy⟩]
    · intro o
      have hdec := offset_decode (stride w) x y o hxs
      by_cases hhit : 3 * x + stride w * y ≤ o ∧ o ≤ 3 * x + stride w * y + 2
      · have hch := offset_channel (stride w) x y o hxs hhit.1 hhit.2
        rw [if_pos ⟨hx, hy, hdec.mpr hhit⟩, hch]
        simp only [List.getElem?_set, List.length_set, chan]
        have ho : o = 3 * x + stride w * y ∨ o = 3 * x + stride w * y + 1 ∨
            o = 3 * x + stride w * y + 2 := by omega
        rcases ho with ho | ho | ho
        · subst ho
          simp [hoff, show 3 * x + stride w * y < d.length by omega]
        · subst ho
          simp [hoff, show 3 * x + stride w * y + 1 < d.length by omega]
        · subst ho
          simp [hoff]
      · rw [if_neg (fun hh => hhit (hdec.mp ⟨hh.2.2.1, hh.2.2.2⟩))]
        rw [List.getElem?_set_ne (by omega), List.getElem?_set_ne (by omega),
          List.getElem?_set_ne (by omega)]
  · refine ⟨d, ?_, rfl, ?_⟩
    · rw [if_neg hin, putpixel_outside b x y red green blue (by rw [hwu, hhei]; omega)]
      congr 3
      cases b
      simp only at hd
      simp [hd]
    · intro o
      rw [if_neg (fun hh => hin ⟨hh.1, hh.2.1⟩)]

/-! ## `draw` as a sequence of `putpixel` calls -/

theorem paint_nil (red green blue : Nat) (st : report × Option bitmap) :
    paint red green blue [] st = some st := rfl

theorem paint_cons (red green blue : Nat) (c : Nat × Nat) (cs : List (Nat × Nat))
    (st : report × Option bitmap) :
    paint red green blue (c :: cs) st =
      (putpixel st.2 c.1 c.2 red green blue).bind (paint red green blue cs) := by
  simp only [paint, List.foldlM_cons]
  rfl

theorem paint_append (red green blue : Nat) (cs ds : List (Nat × Nat))
    (st : report × Option bitmap) :
    paint red green blue (cs ++ ds) st =
      (paint red green blue cs st).bind (paint red green blue ds) := by
  simp only [paint, List.foldlM_append]
  rfl

theorem foldlM_flatMap {α β σ : Type} (f : α → List β) (g : σ → β → Option σ)
    (l : List α) (s : σ) :
    (l.flatMap f).foldlM g s = l.foldlM (fun t a => (f a).foldlM g t) s := by
  induction l generalizing s with
  | nil => rfl
  | cons a l ih =>
    simp only [List.flatMap_cons, List.foldlM_append, List.foldlM_cons]
    cases (f a).foldlM g s with
    | none => rfl
    | some t => exact ih t

theorem draw_eq_paint (b : bitmap) (x y size red green blue : Nat) :
    draw (some b) x y size red green blue =
      paint red green blue (cells x y size) (report.REPORT_NULL, some b) := by
  simp only [draw, forLoop, paint, cells, foldlM_flatMap, List.foldlM_map]

theorem cells_zero (x y : Nat) : cells x y 0 = [] := rfl

theorem mem_cells (x y size : Nat) (c : Nat × Nat) :
    c ∈ cells x y size ↔ ∃ i j, i < size ∧ j < size ∧ c = (u32 (x + i), u32 (y + j)) := by
  simp only [cells, List.mem_flatMap, List.mem_map, List.mem_range]
  constructor
  · rintro ⟨i, hi, j, hj, rfl⟩
    exact ⟨i, j, hi, hj, rfl⟩
  · rintro ⟨i, j, hi, hj, rfl⟩
    exact ⟨i, hi, j, hj, rfl⟩

theorem cells_succ (x y n : Nat) :
    ∃ cs, cells x y (n + 1) = cs ++ [(u32 (x + n), u32 (y + n))] := by
  refine ⟨(List.range n).flatMap (fun i =>
      (List.range (n + 1)).map fun j => (u32 (x + i), u32 (y + j))) ++
      (List.range n).map (fun j => (u32 (x + n), u32 (y + j))), ?_⟩
  simp only [cells, List.range_succ, List.flatMap_append, List.map_append, List.flatMap_cons,
    List.flatMap_nil, List.map_cons, List.map_nil, List.append_nil, List.append_assoc]

theorem lastReport_concat (w h : Nat) (cs : List (Nat × Nat)) (c : Nat × Nat) (rep0 : report) :
    lastReport w h (cs ++ [c]) rep0 =
      if c.1 < w ∧ c.2 < h then report.REPORT_NULL else report.REPORT_ARGS := by
  simp [lastReport, List.foldl_append]

theorem canvas_data (w h : Nat) (b : bitmap) (d e : List Nat) (hc : Canvas w h b)
    (hd : b.data = some d) (he : e.length = d.length) :
    Canvas w h { b with data := some e } := by
  obtain ⟨h1, h2, h3, h4, h5, h6⟩ := hc
  refine ⟨h1, h2, h3, h4, h5, ?_⟩
  rw [hd] at h6
  simpa [he] using h6

/-- Effect of a sequence of `putpixel` calls on a canvas: no call is undefined,
the report is the one of the last call, the header is kept, and a byte of the
block changes exactly when it belongs to a listed cell inside the canvas. -/
theorem paint_canvas (w h red green blue : Nat) (cs : List (Nat × Nat)) (b : bitmap)
    (d : List Nat) (rep0 : report) (hc : Canvas w h b) (hd : b.data = some d) :
    ∃ e, paint red green blue cs (rep0, some b)
        = some (lastReport w h cs rep0, some { b with data := some e }) ∧
      e.length = d.length ∧
      ∀ o, e[o]? =
        if ∃ c ∈ cs, c.1 < w ∧ c.2 < h ∧ o / stride w = c.2 ∧ o % stride w / 3 = c.1
        then some (chan red green blue (o % stride w % 3)) else d[o]? := by
  induction cs generalizing b d rep0 with
  | nil =>
    refine ⟨d, ?_, rfl, ?_⟩
    · rw [paint_nil]
      simp only [lastReport, List.foldl_nil]
      congr 3
      cases b
      simp only at hd
      simp [hd]
    · intro o
      simp
  | cons c cs ih =>
    obtain ⟨e1, hstep, hlen1, hget1⟩ := putpixel_canvas w h b d hc hd c.1 c.2 red green blue
    obtain ⟨e, hrest, hlen, hget⟩ :=
      ih { b with data := some e1 } e1
        (if c.1 < w ∧ c.2 < h then report.REPORT_NULL else report.REPORT_ARGS)
        (canvas_data w h b d e1 hc hd hlen1) rfl
    refine ⟨e, ?_, by rw [hlen, hlen1], ?_⟩
    · rw [paint_cons]
      simp only []
      rw [hstep, Option.some_bind, hrest]
      rfl
    · intro o
      rw [hget o, hget1 o]
      by_cases h1 : ∃ c2 ∈ cs, c2.1 < w ∧ c2.2 < h ∧ o / stride w = c2.2 ∧ o % stride w / 3 = c2.1
      · obtain ⟨c2, hm, hp⟩ := h1
        rw [if_pos ⟨c2, hm, hp⟩, if_pos ⟨c2, List.mem_cons_of_mem _ hm, hp⟩]
      · rw [if_neg h1]
        by_cases h2 : c.1 < w ∧ c.2 < h ∧ o / stride w = c.2 ∧ o % stride w / 3 = c.1
        · rw [if_pos h2, if_pos ⟨c, List.mem_cons_self _ _, h2⟩]
        · rw [if_neg h2, if_neg]
          rintro ⟨c2, hm, hp⟩
          rcases List.mem_cons.mp hm with heq | hm2
          · subst heq
            exact h2 hp
          · exact h1 ⟨c2, hm2, hp⟩

theorem lastReport_cells (w h x y n : Nat) (rep0 : report) :
    lastReport w h (cells x y (n + 1)) rep0 =
      if u32 (x + n) < w ∧ u32 (y + n) < h then report.REPORT_NULL else report.REPORT_ARGS := by
  obtain ⟨cs, hcs⟩ := cells_succ x y n
  rw [hcs, lastReport_concat]

theorem canvas_create (b0 : bitmap) (w h : Nat) (d : List Nat) (hw : 3 * w + 3 < 2 ^ 31)
    (hh : h < 2 ^ 32) (hsz : h * stride w < 2 ^ 32) (hd : d.length = h * stride w) :
    ∃ b, create (some b0) w h true = (report.REPORT_NULL, some b) ∧
      b.data.map List.length = some d.length ∧
      Canvas w h { b with data := some d } := by
  have hu : u32 (h * stride w) = h * stride w := Nat.mod_eq_of_lt hsz
  refine ⟨_, create_some b0 w h true, ?_, rfl, toInt32_of_small w (by omega),
    toUInt32_toInt32 h hh, hw, hsz, ?_⟩
  · simp [hu, hd]
  · simp [hd]

/-- Effect of `draw` on a canvas, in terms of the cells it visits. -/
theorem draw_canvas (w h : Nat) (b : bitmap) (d : List Nat) (hc : Canvas w h b)
    (hd : b.data = some d) (x y size red green blue : Nat) :
    ∃ e, draw (some b) x y size red green blue
        = some (lastReport w h (cells x y size) report.REPORT_NULL,
            some { b with data := some e }) ∧
      e.length = d.length ∧
      ∀ o, e[o]? =
        if ∃ c ∈ cells x y size, c.1 < w ∧ c.2 < h ∧ o / stride w = c.2 ∧ o % stride w / 3 = c.1
        then some (chan red green blue (o % stride w % 3)) else d[o]? := by
  rw [draw_eq_paint]
  exact paint_canvas w h red green blue (cells x y size) b d report.REPORT_NULL hc hd

theorem frame_trans (a b c : bitmap) (h1 : { b with data := a.data } = a)
    (h2 : { c with data := b.data } = b) : { c with data := a.data } = a := by
  cases a
  cases b
  cases c
  simp only [bitmap.mk.injEq] at h1 h2 ⊢
  obtain ⟨a1, a2, a3, a4, a5, a6, a7, a8, a9, a10, a11, a12, a13, a14, a15, -⟩ := h1
  obtain ⟨b1, b2, b3, b4, b5, b6, b7, b8, b9, b10, b11, b12, b13, b14, b15, -⟩ := h2
  subst a1 a2 a3 a4 a5 a6 a7 a8 a9 a10 a11 a12 a13 a14 a15
  subst b1 b2 b3 b4 b5 b6 b7 b8 b9 b10 b11 b12 b13 b14 b15
  simp

/-- A sequence of `putpixel` calls that completes keeps every header field and
the length of the block. -/
theorem paint_frame (red green blue : Nat) (cs : List (Nat × Nat)) (b : bitmap)
    (rep0 rep : report) (st : Option bitmap)
    (h : paint red green blue cs (rep0, some b) = some (rep, st)) :
    ∃ c, st = some c ∧ { c with data := b.data } = b ∧
      c.data.map List.length = b.data.map List.length := by
  induction cs generalizing b rep0 with
  | nil =>
    rw [paint_nil] at h
    simp only [Option.some.injEq, Prod.mk.injEq] at h
    exact ⟨b, h.2.symm, rfl, rfl⟩
  | cons c cs ih =>
    rw [paint_cons] at h
    simp only [] at h
    cases hp : putpixel (some b) c.1 c.2 red green blue with
    | none => rw [hp] at h; exact absurd h (by simp)
    | some r =>
      obtain ⟨rep1, st1⟩ := r
      rw [hp, Option.some_bind] at h
      obtain ⟨c1, hst1, hf1, hl1⟩ := putpixel_frame b c.1 c.2 red green blue rep1 st1 hp
      subst hst1
      obtain ⟨c2, hst2, hf2, hl2⟩ := ih c1 rep1 h
      exact ⟨c2, hst2, frame_trans b c1 c2 hf1 hf2, by rw [hl2, hl1]⟩

/-- The report of `putpixel` depends only on the header and on the length of the
block. -/
theorem putpixel_report_congr (b c : bitmap) (hf : { c with data := b.data } = b)
    (hl : c.data.map List.length = b.data.map List.length) (x y red green blue : Nat) :
    (putpixel (some c) x y red green blue).map Prod.fst
      = (putpixel (some b) x y red green blue).map Prod.fst := by
  cases b with
  | mk b1 b2 b3 b4 b5 b6 b7 b8 b9 b10 b11 b12 b13 b14 b15 bd =>
  cases c with
  | mk c1 c2 c3 c4 c5 c6 c7 c8 c9 c10 c11 c12 c13 c14 c15 cd =>
  simp only [bitmap.mk.injEq] at hf
  obtain ⟨a1, a2, a3, a4, a5, a6, a7, a8, a9, a10, a11, a12, a13, a14, a15, -⟩ := hf
  subst a1 a2 a3 a4 a5 a6 a7 a8 a9 a10 a11 a12 a13 a14 a15
  simp only at hl
  unfold putpixel
  simp only []
  split
  · split
    · rfl
    · cases cd with
      | none =>
        cases bd with
        | none => rfl
        | some d2 => simp at hl
      | some d1 =>
        cases bd with
        | none => simp at hl
        | some d2 =>
          simp only [Option.map_some', Option.some.injEq] at hl
          simp only [hl]
          split <;> rfl
  · rfl

theorem canvas_create_self (b0 : bitmap) (w h : Nat) (hw : 3 * w + 3 < 2 ^ 31)
    (hh : h < 2 ^ 32) (hsz : h * stride w < 2 ^ 32) :
    ∃ b d, create (some b0) w h true = (report.REPORT_NULL, some b) ∧
      b.data = some d ∧ Canvas w h b := by
  have hu : u32 (h * stride w) = h * stride w := Nat.mod_eq_of_lt hsz
  refine ⟨_, _, create_some b0 w h true, rfl, rfl, toInt32_of_small w (by omega),
    toUInt32_toInt32 h hh, hw, hsz, ?_⟩
  simp [hu]

/-- Claim C3: for every buffer and every `x`, `y`, `putpixel` returns `REPORT_ARGS`
if and only if `x ≥ width` or `y ≥ height` (the unsigned readings of the stored
fields, which for a created buffer are the dimensions given), and then the buffer
is returned unchanged; in particular `putpixel` at `(width, y)` and at
`(x, height)` fails with `REPORT_ARGS`. -/
theorem C3_putpixel_rejects (b : bitmap) (x y red green blue : Nat) :
    ((∃ st, putpixel (some b) x y red green blue = some (report.REPORT_ARGS, st)) ↔
        (toUInt32 b.iwidth ≤ x ∨ toUInt32 b.iheight ≤ y)) ∧
      ((toUInt32 b.iwidth ≤ x ∨ toUInt32 b.iheight ≤ y) →
        putpixel (some b) x y red green blue = some (report.REPORT_ARGS, some b)) ∧
      putpixel (some b) (toUInt32 b.iwidth) y red green blue
        = some (report.REPORT_ARGS, some b) ∧
      putpixel (some b) x (toUInt32 b.iheight) red green blue
        = some (report.REPORT_ARGS, some b) ∧
      (∀ b0 w h ok, w < 2 ^ 32 → h < 2 ^ 32 →
        ∃ c, (create (some b0) w h ok).2 = some c ∧
          toUInt32 c.iwidth = w ∧ toUInt32 c.iheight = h) := by
  refine ⟨⟨?_, ?_⟩, putpixel_outside b x y red green blue,
    putpixel_outside b _ y red green blue (Or.inl (Nat.le_refl _)),
    putpixel_outside b x _ red green blue (Or.inr (Nat.le_refl _)), ?_⟩
  · rintro ⟨st, hst⟩
    by_contra hc
    exact putpixel_inside_report b x y red green blue (by omega) st hst
  · intro h
    exact ⟨_, putpixel_outside b x y red green blue h⟩
  · intro b0 w h ok hw hh
    exact ⟨_, by rw [create_some], toUInt32_toInt32 w hw, toUInt32_toInt32 h hh⟩

theorem C3_putpixel_rejects_witness :
    putpixel (create (some blank) 2 2 true).2 2 1 10 20 30
        = some (report.REPORT_ARGS, (create (some blank) 2 2 true).2) ∧
      ∃ c, (create (some blank) 2 2 true).2 = some c ∧
        toUInt32 c.iwidth = 2 ∧ toUInt32 c.iheight = 2 :=
  ⟨(C3_putpixel_rejects
      canvas2 2 1 10 20 30).2.1 (Or.inl (by decide)),
    (C3_putpixel_rejects blank 0 0 0 0 0).2.2.2.2 blank 2 2 true (by decide) (by decide)⟩

/-! ## Claims about pixel and tile writes -/

/-- Claim C2 fails as stated: `create` with width 1 and height `2 ^ 30` succeeds
with a block of 0 bytes (the size `4 * 2 ^ 30` wraps to 0), and `putpixel` at
`(0, 0)`, which is in range, stores outside that block: the execution is
undefined and no byte at offsets 0, 1, 2 exists. -/
theorem C2_putpixel_counterexample :
    (create (some blank) 1 1073741824 true).1 = report.REPORT_NULL ∧
      (0 < 1 ∧ 0 < 1073741824) ∧
      (create (some blank) 1 1073741824 true).2.bind bitmap.data = some [] ∧
      putpixel (create (some blank) 1 1073741824 true).2 0 0 1 2 3 = none := by
  decide

/-- Claim C2, amended: for every width `w` and height `h` with `3 * w + 3 < 2 ^ 31`
and `h * stride w < 2 ^ 32`, every buffer created with these dimensions (whatever
pixel data `d` it holds) and every `x < w`, `y < h`, `putpixel` returns
`REPORT_NULL` and afterwards the bytes at offsets `3 * x + stride * y`, `+ 1`,
`+ 2` are blue, green, red, where `stride = roundUp4 (3 * w)`; row `y` is used as
is. -/
theorem C2_putpixel_writes (b0 : bitmap) (w h x y red green blue : Nat) (d : List Nat)
    (hw : 3 * w + 3 < 2 ^ 31) (hsz : h * stride w < 2 ^ 32) (hd : d.length = h * stride w)
    (hx : x < w) (hy : y < h) :
    ∃ b e, create (some b0) w h true = (report.REPORT_NULL, some b) ∧
      b.data.map List.length = some (d).length ∧
      putpixel (some { b with data := some (d) }) x y red green blue
        = some (report.REPORT_NULL, some { b with data := some e }) ∧
      e.length = (d).length ∧
      e[3 * x + stride w * y]? = some blue ∧
      e[3 * x + stride w * y + 1]? = some green ∧
      e[3 * x + stride w * y + 2]? = some red ∧
      stride w = (3 * w + 3) / 4 * 4 := by
  have hxs := three_mul_lt_stride w x hw hx
  have hh : h < 2 ^ 32 := by
    have := Nat.le_mul_of_pos_right h (by omega : 0 < stride w)
    omega
  obtain ⟨b, hb, hbl, hc⟩ := canvas_create b0 w h d hw hh hsz hd
  obtain ⟨e, hp, hlen, hget⟩ := putpixel_canvas w h _ d hc rfl x y red green blue
  rw [if_pos ⟨hx, hy⟩] at hp
  have hdec : ∀ k, k < 3 →
      e[3 * x + stride w * y + k]? = some (chan red green blue k) := by
    intro k hk
    have h1 := (offset_decode (stride w) x y (3 * x + stride w * y + k) hxs).mpr
      ⟨by omega, by omega⟩
    have h2 := offset_channel (stride w) x y (3 * x + stride w * y + k) hxs
      (by omega) (by omega)
    rw [hget, if_pos ⟨hx, hy, h1⟩, h2]
    congr 2
    omega
  exact ⟨b, e, hb, hbl, hp, hlen, hdec 0 (by omega), hdec 1 (by omega), hdec 2 (by omega),
    stride_eq_of_small w (by omega)⟩

theorem C2_putpixel_writes_witness :
    ∃ b e, create (some blank) 2 2 true = (report.REPORT_NULL, some b) ∧
      b.data.map List.length = some (List.replicate 16 255).length ∧
      putpixel (some { b with data := some (List.replicate 16 255) }) 1 1 10 20 30
        = some (report.REPORT_NULL, some { b with data := some e }) ∧
      e.length = (List.replicate 16 255).length ∧
      e[3 * 1 + stride 2 * 1]? = some 30 ∧
      e[3 * 1 + stride 2 * 1 + 1]? = some 20 ∧
      e[3 * 1 + stride 2 * 1 + 2]? = some 10 ∧
      stride 2 = (3 * 2 + 3) / 4 * 4 :=
  C2_putpixel_writes blank 2 2 1 1 10 20 30 (List.replicate 16 255) (by decide) (by decide)
    (by decide) (by decide) (by decide)

/-- Claim C5 fails as stated: for width 1 and height `2 ^ 30` the product
`height * stride` is `2 ^ 32` but the stored `isize` is 0 (and `fsize` is 54). -/
theorem C5_header_counterexample :
    (create (some blank) 1 1073741824 true).2.map bitmap.isize = some 0 ∧
      1073741824 * stride 1 = 4294967296 ∧
      ¬ ((create (some blank) 1 1073741824 true).2.map bitmap.isize
          = some (1073741824 * stride 1)) := by
  decide

/-- Claim C5, amended: for every buffer produced by `create`, the stored fields
satisfy `fsize = (foffset + isize) mod 2 ^ 32` with `foffset = 54` and
`isize = (height * stride width) mod 2 ^ 32`, hence `fsize = foffset + isize` and
`isize = height * stride width` whenever `54 + height * stride width < 2 ^ 32`;
and a `putpixel` or `draw` call that completes changes no field other than the
pixel data. -/
theorem C5_header_invariant (b0 : bitmap) (w h : Nat) (ok : Bool) :
    (∃ b, (create (some b0) w h ok).2 = some b ∧ b.foffset = 54 ∧
      b.fsize = (b.foffset + b.isize) % 2 ^ 32 ∧
      b.isize = (h * stride w) % 2 ^ 32 ∧
      (54 + h * stride w < 2 ^ 32 →
        b.fsize = b.foffset + b.isize ∧ b.isize = h * stride w)) ∧
    (∀ (c : bitmap) (x y red green blue : Nat) (rep : report) (st : Option bitmap),
      putpixel (some c) x y red green blue = some (rep, st) →
        ∃ c2, st = some c2 ∧ { c2 with data := c.data } = c) ∧
    (∀ (c : bitmap) (x y size red green blue : Nat) (rep : report) (st : Option bitmap),
      draw (some c) x y size red green blue = some (rep, st) →
        ∃ c2, st = some c2 ∧ { c2 with data := c.data } = c) := by
  refine ⟨⟨_, by rw [create_some], rfl, rfl, rfl, ?_⟩, ?_, ?_⟩
  · intro hlt
    have h1 : u32 (h * stride w) = h * stride w := Nat.mod_eq_of_lt (by omega)
    have h2 : u32 (0x36 + h * stride w) = 0x36 + h * stride w := Nat.mod_eq_of_lt (by omega)
    simp only [h1, h2]
    exact ⟨trivial, trivial⟩
  · intro c x y red green blue rep st hp
    obtain ⟨c2, h1, h2, -⟩ := putpixel_frame c x y red green blue rep st hp
    exact ⟨c2, h1, h2⟩
  · intro c x y size red green blue rep st hp
    rw [draw_eq_paint] at hp
    obtain ⟨c2, h1, h2, -⟩ := paint_frame red green blue _ c _ rep st hp
    exact ⟨c2, h1, h2⟩

theorem C5_header_invariant_witness :
    (∃ b, (create (some blank) 2 2 true).2 = some b ∧
      b.fsize = b.foffset + b.isize ∧ b.isize = 2 * stride 2) ∧
    (∃ c2, putpixel (create (some blank) 2 2 true).2 1 1 10 20 30
        = some (report.REPORT_NULL, some c2) ∧ c2.isize = 16 ∧ c2.fsize = 70) ∧
    (∃ c2, draw (create (some blank) 2 2 true).2 1 1 2 10 20 30
        = some (report.REPORT_ARGS, some c2) ∧ c2.isize = 16 ∧ c2.fsize = 70) := by
  refine ⟨?_, ?_, ?_⟩
  · obtain ⟨b, hb, -, -, -, himp⟩ := (C5_header_invariant blank 2 2 true).1
    exact ⟨b, hb, himp (by decide)⟩
  · have hp : putpixel (create (some blank) 2 2 true).2 1 1 10 20 30
        = some (report.REPORT_NULL, some
          { ftype := [0x42, 0x4D], fsize := 70, freserved := 0,
            foffset := 0x36, iheadersize := 0x28, iwidth := 2, iheight := 2,
            iplanes := 1, idepth := 0x18, icompression := 0, isize := 16,
            ihorizontal := 0, ivertical := 0, icolors := 0, iimpcolors := 0,
            data := some [255, 255, 255, 255, 255, 255, 255, 255, 255, 255, 255, 30, 20, 10,
              255, 255] }) := by decide
    obtain ⟨c2, h1, h2⟩ :=
      (C5_header_invariant blank 2 2 true).2.1 _ 1 1 10 20 30 _ _ hp
    refine ⟨c2, ?_, congrArg bitmap.isize h2, congrArg bitmap.fsize h2⟩
    rw [hp, h1]
  · have hp : draw (create (some blank) 2 2 true).2 1 1 2 10 20 30
        = some (report.REPORT_ARGS, some
          { ftype := [0x42, 0x4D], fsize := 70, freserved := 0,
            foffset := 0x36, iheadersize := 0x28, iwidth := 2, iheight := 2,
            iplanes := 1, idepth := 0x18, icompression := 0, isize := 16,
            ihorizontal := 0, ivertical := 0, icolors := 0, iimpcolors := 0,
            data := some [255, 255, 255, 255, 255, 255, 255, 255, 255, 255, 255, 30, 20, 10,
              255, 255] }) := by decide
    obtain ⟨c2, h1, h2⟩ :=
      (C5_header_invariant blank 2 2 true).2.2 _ 1 1 2 10 20 30 _ _ hp
    refine ⟨c2, ?_, congrArg bitmap.isize h2, congrArg bitmap.fsize h2⟩
    rw [hp, h1]

/-- Claim C8 fails as stated: on a 1 by 1 canvas, `draw` at `x = 2 ^ 32 - 1`,
`y = 0` with size 2 computes `x + 1` in 32 bits, which wraps to 0, and writes the
pixel `(0, 0)`, although 0 is not in the range `x ≤ px < x + size`: the bytes of a
pixel outside the square are changed. -/
theorem C8_draw_counterexample :
    (create (some blank) 1 1 true).2.bind bitmap.data = some [255, 255, 255, 255] ∧
      (draw (create (some blank) 1 1 true).2 4294967295 0 2 1 2 3).bind
        (fun r => r.2.bind bitmap.data) = some [3, 2, 1, 255] ∧
      ¬ (4294967295 ≤ 0) := by
  decide

/-- Claim C8, amended: for every canvas created with `3 * w + 3 < 2 ^ 31` and
`h * stride w < 2 ^ 32` (whatever pixel data it holds) and every `x`, `y`, `size`
with `x + size ≤ 2 ^ 32` and `y + size ≤ 2 ^ 32`, `draw` completes, every in-canvas
pixel `(px, py)` of the square `x ≤ px < x + size`, `y ≤ py < y + size` holds the
bytes blue, green, red, and every other byte of the pixel data (other pixels and
row padding) is unchanged; cells outside the canvas are skipped. -/
theorem C8_draw_fills (b0 : bitmap) (w h x y size red green blue : Nat) (d : List Nat)
    (hw : 3 * w + 3 < 2 ^ 31) (hh : h < 2 ^ 32) (hsz : h * stride w < 2 ^ 32)
    (hd : d.length = h * stride w) (hxs : x + size ≤ 2 ^ 32) (hys : y + size ≤ 2 ^ 32) :
    ∃ b e rep, create (some b0) w h true = (report.REPORT_NULL, some b) ∧
      b.data.map List.length = some (d).length ∧
      draw (some { b with data := some (d) }) x y size red green blue
        = some (rep, some { b with data := some e }) ∧
      e.length = (d).length ∧
      (∀ px py, px < w → py < h → x ≤ px → px < x + size → y ≤ py → py < y + size →
        e[3 * px + stride w * py]? = some blue ∧
        e[3 * px + stride w * py + 1]? = some green ∧
        e[3 * px + stride w * py + 2]? = some red) ∧
      (∀ o, (¬ ∃ px py k, px < w ∧ py < h ∧ x ≤ px ∧ px < x + size ∧ y ≤ py ∧
          py < y + size ∧ k < 3 ∧ o = 3 * px + stride w * py + k) →
        e[o]? = (d)[o]?) := by
  obtain ⟨b, hb, hbl, hc⟩ := canvas_create b0 w h d hw hh hsz hd
  obtain ⟨e, hp, hlen, hget⟩ := draw_canvas w h _ d hc rfl x y size red green blue
  refine ⟨b, e, _, hb, hbl, hp, hlen, ?_, ?_⟩
  · intro px py hpx hpy hx1 hx2 hy1 hy2
    have hxs2 := three_mul_lt_stride w px hw hpx
    have hmem : (px, py) ∈ cells x y size := by
      rw [mem_cells]
      refine ⟨px - x, py - y, by omega, by omega, ?_⟩
      have h1 : x + (px - x) = px := by omega
      have h2 : y + (py - y) = py := by omega
      have h3 : u32 px = px := Nat.mod_eq_of_lt (by omega)
      have h4 : u32 py = py := Nat.mod_eq_of_lt (by omega)
      rw [h1, h2, h3, h4]
    have hdec : ∀ k, k < 3 →
        e[3 * px + stride w * py + k]? = some (chan red green blue k) := by
      intro k hk
      have h1 := (offset_decode (stride w) px py (3 * px + stride w * py + k) hxs2).mpr
        ⟨by omega, by omega⟩
      have h2 := offset_channel (stride w) px py (3 * px + stride w * py + k) hxs2
        (by omega) (by omega)
      rw [hget, if_pos ⟨(px, py), hmem, hpx, hpy, h1⟩, h2]
      congr 2
      omega
    exact ⟨hdec 0 (by omega), hdec 1 (by omega), hdec 2 (by omega)⟩
  · intro o hno
    rw [hget, if_neg]
    rintro ⟨c, hmem, hcx, hcy, hdiv, hmod⟩
    rw [mem_cells] at hmem
    obtain ⟨i, j, hi, hj, rfl⟩ := hmem
    have h1 : u32 (x + i) = x + i := Nat.mod_eq_of_lt (by omega)
    have h2 : u32 (y + j) = y + j := Nat.mod_eq_of_lt (by omega)
    simp only [h1, h2] at hcx hcy hdiv hmod
    have hxs2 := three_mul_lt_stride w (x + i) hw hcx
    have hb2 := (offset_decode (stride w) (x + i) (y + j) o hxs2).mp ⟨hdiv, hmod⟩
    exact hno ⟨x + i, y + j, o - (3 * (x + i) + stride w * (y + j)), hcx, hcy, by omega,
      by omega, by omega, by omega, by omega, by omega⟩

theorem C8_draw_fills_witness :
    ∃ b e rep, create (some blank) 100 100 true = (report.REPORT_NULL, some b) ∧
      b.data.map List.length = some (List.replicate 30000 255).length ∧
      draw (some { b with data := some (List.replicate 30000 255) }) 95 95 10 1 2 3
        = some (rep, some { b with data := some e }) ∧
      e.length = (List.replicate 30000 255).length ∧
      (∀ px py, px < 100 → py < 100 → 95 ≤ px → px < 95 + 10 → 95 ≤ py → py < 95 + 10 →
        e[3 * px + stride 100 * py]? = some 3 ∧
        e[3 * px + stride 100 * py + 1]? = some 2 ∧
        e[3 * px + stride 100 * py + 2]? = some 1) ∧
      (∀ o, (¬ ∃ px py k, px < 100 ∧ py < 100 ∧ 95 ≤ px ∧ px < 95 + 10 ∧ 95 ≤ py ∧
          py < 95 + 10 ∧ k < 3 ∧ o = 3 * px + stride 100 * py + k) →
        e[o]? = (List.replicate 30000 255)[o]?) :=
  C8_draw_fills blank 100 100 95 95 10 1 2 3 (List.replicate 30000 255) (by decide)
    (by decide) (by decide) (by rw [List.length_replicate]; decide) (by decide) (by decide)

/-- Claim C9: for every buffer, `x`, `y` and `size ≥ 1`, the result of `draw` is
exactly the result of the `putpixel` call on the last attempted cell
`(x + size - 1, y + size - 1)` (sums in `uint32_t`), made after the calls on all
the other cells: no earlier out-of-range cell aborts the loops, and the report is
the one `putpixel` gives for that cell on the buffer as it was before `draw`. On a
canvas the execution is always defined. For `size = 0`, `draw` returns
`REPORT_NULL` and changes nothing. -/
theorem C9_draw_reports_last (b : bitmap) (x y size red green blue : Nat) :
    (1 ≤ size →
      ∃ cs, cells x y size = cs ++ [(u32 (x + (size - 1)), u32 (y + (size - 1)))] ∧
        draw (some b) x y size red green blue =
          (paint red green blue cs (report.REPORT_NULL, some b)).bind fun st =>
            putpixel st.2 (u32 (x + (size - 1))) (u32 (y + (size - 1))) red green blue) ∧
    (∀ rep st, 1 ≤ size → draw (some b) x y size red green blue = some (rep, st) →
      (putpixel (some b) (u32 (x + (size - 1))) (u32 (y + (size - 1))) red green blue).map
        Prod.fst = some rep) ∧
    (∀ w h, Canvas w h b → 1 ≤ size →
      ∃ rep c1 c2, draw (some b) x y size red green blue = some (rep, some c1) ∧
        putpixel (some b) (u32 (x + (size - 1))) (u32 (y + (size - 1))) red green blue
          = some (rep, some c2)) ∧
    draw (some b) x y 0 red green blue = some (report.REPORT_NULL, some b) := by
  have hsplit : ∀ n, ∃ cs, cells x y (n + 1) = cs ++ [(u32 (x + n), u32 (y + n))] ∧
      draw (some b) x y (n + 1) red green blue =
        (paint red green blue cs (report.REPORT_NULL, some b)).bind fun st =>
          putpixel st.2 (u32 (x + n)) (u32 (y + n)) red green blue := by
    intro n
    obtain ⟨cs, hcs⟩ := cells_succ x y n
    refine ⟨cs, hcs, ?_⟩
    rw [draw_eq_paint, hcs, paint_append]
    congr 1
    funext st
    rw [paint_cons]
    show (putpixel st.2 (u32 (x + n)) (u32 (y + n)) red green blue).bind
      (paint red green blue []) = _
    cases putpixel st.2 (u32 (x + n)) (u32 (y + n)) red green blue <;> rfl
  refine ⟨?_, ?_, ?_, rfl⟩
  · intro hs
    obtain ⟨n, rfl⟩ : ∃ n, size = n + 1 := ⟨size - 1, by omega⟩
    exact hsplit n
  · intro rep st hs hdraw
    obtain ⟨n, rfl⟩ : ∃ n, size = n + 1 := ⟨size - 1, by omega⟩
    obtain ⟨cs, -, heq⟩ := hsplit n
    rw [heq] at hdraw
    simp only [Nat.add_sub_cancel]
    cases hp : paint red green blue cs (report.REPORT_NULL, some b) with
    | none => rw [hp] at hdraw; exact absurd hdraw (by simp)
    | some r =>
      obtain ⟨rep1, st1⟩ := r
      rw [hp, Option.some_bind] at hdraw
      obtain ⟨c1, hst1, hf1, hl1⟩ := paint_frame red green blue cs b _ rep1 st1 hp
      subst hst1
      rw [← putpixel_report_congr b c1 hf1 hl1, hdraw]
      rfl
  · intro w h hc hs
    obtain ⟨n, rfl⟩ : ∃ n, size = n + 1 := ⟨size - 1, by omega⟩
    simp only [Nat.add_sub_cancel]
    have hdata : ∃ d, b.data = some d := by
      have h6 := hc.2.2.2.2.2
      cases hbd : b.data with
      | none => rw [hbd] at h6; exact absurd h6 (by simp)
      | some d => exact ⟨d, rfl⟩
    obtain ⟨d, hd⟩ := hdata
    obtain ⟨e, hp, -, -⟩ := draw_canvas w h b d hc hd x y (n + 1) red green blue
    obtain ⟨e2, hp2, -, -⟩ :=
      putpixel_canvas w h b d hc hd (u32 (x + n)) (u32 (y + n)) red green blue
    rw [lastReport_cells] at hp
    exact ⟨_, _, _, hp, hp2⟩

theorem C9_draw_reports_last_witness :
    (∃ cs, cells 1 1 2 = cs ++ [(u32 (1 + (2 - 1)), u32 (1 + (2 - 1)))] ∧
        draw (some canvas2) 1 1 2 10 20 30 =
          (paint 10 20 30 cs (report.REPORT_NULL, some canvas2)).bind fun st =>
            putpixel st.2 (u32 (1 + (2 - 1))) (u32 (1 + (2 - 1))) 10 20 30) ∧
    (putpixel (some canvas2) (u32 (1 + (2 - 1))) (u32 (1 + (2 - 1))) 10 20 30).map
        Prod.fst = some report.REPORT_ARGS ∧
    (∃ rep c1 c2, draw (some canvas2) 1 1 2 10 20 30 = some (rep, some c1) ∧
        putpixel (some canvas2) (u32 (1 + (2 - 1))) (u32 (1 + (2 - 1))) 10 20 30
          = some (rep, some c2)) :=
  ⟨(C9_draw_reports_last canvas2 1 1 2 10 20 30).1 (by decide),
   (C9_draw_reports_last canvas2 1 1 2 10 20 30).2.1 report.REPORT_ARGS
      (some { canvas2 with data := some [255, 255, 255, 255, 255, 255, 255, 255, 255, 255,
        255, 30, 20, 10, 255, 255] }) (by decide) (by decide),
   (C9_draw_reports_last canvas2 1 1 2 10 20 30).2.2.1 2 2
      ⟨rfl, rfl, by decide, by decide, by decide, by decide⟩ (by decide)⟩

/-- Claim C10 fails as stated: on the canvas created with width 100 and height
100, `draw` with size 10 at `(95, 95)` returns `REPORT_ARGS`, not `REPORT_NULL`. -/
theorem C10_draw_edge_counterexample :
    (draw (create (some blank) 100 100 true).2 95 95 10 10 20 30).map Prod.fst
        = some report.REPORT_ARGS ∧
      ¬ ((draw (create (some blank) 100 100 true).2 95 95 10 10 20 30).map Prod.fst
        = some report.REPORT_NULL) := by
  obtain ⟨b, d, hb, hd, hc⟩ :=
    canvas_create_self blank 100 100 (by decide) (by decide) (by decide)
  obtain ⟨e, hp, -, -⟩ := draw_canvas 100 100 b d hc hd 95 95 10 10 20 30
  rw [lastReport_cells, if_neg (by decide)] at hp
  rw [hb]
  simp only [hp, Option.map_some']
  exact ⟨trivial, by decide⟩

/-- Claim C10, amended: `draw` with size 10 at `x = 95`, `y = 95` on a buffer
created with width 100 and height 100 completes and reports `REPORT_ARGS`: the
last attempted cell is `(104, 104)`, which `putpixel` rejects. -/
theorem C10_draw_edge_tile (b0 : bitmap) (red green blue : Nat) :
    ∃ b c, create (some b0) 100 100 true = (report.REPORT_NULL, some b) ∧
      draw (some b) 95 95 10 red green blue = some (report.REPORT_ARGS, some c) ∧
      (u32 (95 + (10 - 1)), u32 (95 + (10 - 1))) = (104, 104) ∧
      putpixel (some b) 104 104 red green blue = some (report.REPORT_ARGS, some b) := by
  obtain ⟨b, d, hb, hd, hc⟩ :=
    canvas_create_self b0 100 100 (by decide) (by decide) (by decide)
  obtain ⟨e, hp, -, -⟩ := draw_canvas 100 100 b d hc hd 95 95 10 red green blue
  rw [lastReport_cells, if_neg (by decide)] at hp
  refine ⟨b, _, hb, hp, by decide, ?_⟩
  apply putpixel_outside
  left
  rw [hc.2.1]
  decide

/-- Claim C6: for all 8-bit unsigned `a` and `b`, `add a b` is `min (a + b) 255`,
the sum taken in unbounded integers; in particular `add 250 10 = 255`,
`add 0 0 = 0` and `add 255 255 = 255`. -/
theorem C6_add_saturates (a b : Nat) (ha : a < 256) (hb : b < 256) :
    add a b = min (a + b) 255 ∧
      add 250 10 = 255 ∧ add 0 0 = 0 ∧ add 255 255 = 255 := by
  refine ⟨?_, by decide, by decide, by decide⟩
  unfold add UCHAR_MAX
  simp only []
  split <;> omega

theorem C6_add_saturates_witness :
    (200 < 256 ∧ 100 < 256) ∧ add 200 100 = min (200 + 100) 255 ∧
      add 250 10 = 255 ∧ add 0 0 = 0 ∧ add 255 255 = 255 :=
  ⟨by decide, C6_add_saturates 200 100 (by decide) (by decide)⟩

/-! ## Write failures in `save` -/

theorem fwrite_short (c : List Nat) (n m : Nat) (f : FILE) (hs : f.short f.calls = some m)
    (hm : m < n) :
    fwrite c n f = (0, { f with bytes := f.bytes ++ c.take m, calls := f.calls + 1 }) := by
  unfold fwrite
  rw [if_neg (by omega), hs]
  simp only []
  rw [if_pos hm]

theorem fwrite_pass (c : List Nat) (n : Nat) (f : FILE) (hn : n ≠ 0)
    (hs : f.short f.calls = none) :
    fwrite c n f = (1, { f with bytes := f.bytes ++ c.take n, calls := f.calls + 1 }) := by
  unfold fwrite
  rw [if_neg hn, hs]

/-- A run of writes none of which is cut short goes through entirely. -/
theorem writeFields_pass (fs : List (List Nat × Nat)) (f : FILE)
    (hfs : ∀ cn ∈ fs, cn.2 ≠ 0) (hf : ∀ i, i < fs.length → f.short (f.calls + i) = none) :
    writeFields fs f =
      (false, { f with bytes := f.bytes ++ (fs.map fun cn => cn.1.take cn.2).flatten,
                       calls := f.calls + fs.length }) := by
  induction fs generalizing f with
  | nil => simp [writeFields]
  | cons cn rest ih =>
    obtain ⟨c, n⟩ := cn
    have hn : n ≠ 0 := hfs (c, n) (List.mem_cons_self _ _)
    have hrest : ∀ cn ∈ rest, cn.2 ≠ 0 := fun cn hcn => hfs cn (List.mem_cons_of_mem _ hcn)
    have h0 : f.short f.calls = none := by
      have := hf 0 (by simp)
      simpa using this
    simp only [writeFields, BMP_WRITE, fwrite_pass c n f hn h0, Nat.lt_irrefl, decide_False]
    rw [ih _ hrest (by
      intro i hi
      have := hf (i + 1) (by simp; omega)
      simpa [Nat.add_assoc, Nat.add_comm 1 i] using this)]
    simp [Nat.add_comm, Nat.add_left_comm]

/-- A run of writes whose write number `idx` (from 0) is the first one cut short
stops there: `idx + 1` calls are made, the fields before it are written in
order, followed by the `m` bytes that the failing call lets through. -/
theorem writeFields_short (fs : List (List Nat × Nat)) (f : FILE) (idx m : Nat)
    (hfs : ∀ cn ∈ fs, cn.2 ≠ 0)
    (hbefore : ∀ i, i < idx → f.short (f.calls + i) = none)
    (hshort : f.short (f.calls + idx) = some m)
    (hm : m < (fs.getD idx ([], 0)).2) :
    writeFields fs f =
      (true, { f with
        bytes := f.bytes ++ ((fs.take idx).map fun cn => cn.1.take cn.2).flatten ++
          (fs.getD idx ([], 0)).1.take m,
        calls := f.calls + (idx + 1) }) := by
  induction fs generalizing f idx with
  | nil => simp at hm
  | cons cn rest ih =>
    obtain ⟨c, n⟩ := cn
    have hn : n ≠ 0 := hfs (c, n) (List.mem_cons_self _ _)
    have hrest : ∀ cn ∈ rest, cn.2 ≠ 0 := fun cn hcn => hfs cn (List.mem_cons_of_mem _ hcn)
    cases idx with
    | zero =>
      simp only [List.getD_cons_zero, Nat.add_zero] at hm hshort
      simp only [writeFields, BMP_WRITE, fwrite_short c n m f hshort hm]
      simp
    | succ k =>
      have h0 : f.short f.calls = none := by
        have := hbefore 0 (by omega)
        simpa using this
      simp only [List.getD_cons_succ] at hm
      simp only [writeFields, BMP_WRITE, fwrite_pass c n f hn h0, Nat.lt_irrefl, decide_False]
      rw [ih _ k hrest (by
        intro i hi
        have := hbefore (i + 1) (by omega)
        simpa [Nat.add_assoc, Nat.add_comm 1 i] using this)
        (by simpa [Nat.add_assoc, Nat.add_comm 1 k] using hshort) hm]
      simp [Nat.add_comm, Nat.add_left_comm, Nat.add_assoc]

theorem headerFields_length (b : bitmap) : (headerFields b).length = 15 := rfl

/-- Claim C11 fails as stated: on a buffer whose pixel-data size is 0 (here the one
`create` returns for width 0 and height 0) and a stream on which no write is cut
short, `save` makes its 16 calls and returns `REPORT_READ`, not success: the last
call asks for 0 bytes and `fwrite` returns 0. -/
theorem C11_save_counterexample :
    (∀ i, openStream.short i = none) ∧
      (save (create (some blank) 0 0 true).2 (some openStream)).map
          (fun r => (r.1, r.2.2.map FILE.calls))
        = some (report.REPORT_READ, some 16) := by
  refine ⟨fun _ => rfl, ?_⟩
  decide

/-- Claim C11, amended: for every buffer whose pixel data `d` has the size `isize`,
if the `k`-th write call (`1 ≤ k ≤ 16`) is the first to transfer fewer bytes than
requested, `save` returns `REPORT_READ`, has issued exactly `k` calls, and the bytes
written are the first `k - 1` fields in order followed by what the failing call let
through; if none of the 16 calls is cut short and `isize` is not 0, `save` returns
`REPORT_NULL` after exactly 16 calls. -/
theorem C11_save_write_failure (b : bitmap) (d : List Nat) (f : FILE)
    (hdata : b.data = some d) (hlen : d.length = b.isize) :
    (∀ k m, 1 ≤ k → k ≤ 16 →
      (∀ i, i < k - 1 → f.short (f.calls + i) = none) →
      f.short (f.calls + (k - 1)) = some m →
      m < ((saveFields b d).getD (k - 1) ([], 0)).2 →
      ∃ g, save (some b) (some f) = some (report.REPORT_READ, some b, some g) ∧
        g.calls = f.calls + k ∧
        g.bytes = f.bytes ++
          (((saveFields b d).take (k - 1)).map fun cn => cn.1.take cn.2).flatten ++
          ((saveFields b d).getD (k - 1) ([], 0)).1.take m) ∧
    ((∀ i, i < 16 → f.short (f.calls + i) = none) → b.isize ≠ 0 →
      ∃ g, save (some b) (some f)
          = some (report.REPORT_NULL, some { b with data := none }, some g) ∧
        g.calls = f.calls + 16 ∧
        g.bytes = f.bytes ++ ((saveFields b d).map fun cn => cn.1.take cn.2).flatten) := by
  have hsz := headerFields_sizes b
  have hl := headerFields_length b
  constructor
  · intro k m hk1 hk2 hbefore hshort hm
    by_cases hk : k ≤ 15
    · -- the failing call writes a header field
      have hget : (saveFields b d).getD (k - 1) ([], 0)
          = (headerFields b).getD (k - 1) ([], 0) := by
        simp only [saveFields, List.getD_eq_getElem?_getD]
        rw [List.getElem?_append_left (by omega)]
      have htake : (saveFields b d).take (k - 1) = (headerFields b).take (k - 1) := by
        simp only [saveFields]
        rw [List.take_append_of_le_length (by omega)]
      rw [hget] at hm
      have hw := writeFields_short (headerFields b) f (k - 1) m hsz hbefore hshort hm
      have hs : save (some b) (some f) = some (report.REPORT_READ, some b, some
          { f with
            bytes := f.bytes ++
              (((headerFields b).take (k - 1)).map fun cn => cn.1.take cn.2).flatten ++
              ((headerFields b).getD (k - 1) ([], 0)).1.take m,
            calls := f.calls + (k - 1 + 1) }) := by
        simp only [save, hw]
      refine ⟨_, hs, ?_, ?_⟩
      · show f.calls + (k - 1 + 1) = f.calls + k
        omega
      · rw [hget, htake]
    · -- the failing call writes the pixel data
      have hk16 : k = 16 := by omega
      subst hk16
      have hget : (saveFields b d).getD (16 - 1) ([], 0) = (d, b.isize) := by
        simp only [saveFields, List.getD_eq_getElem?_getD]
        rw [List.getElem?_append_right (by omega)]
        simp [hl]
      have htake : (saveFields b d).take (16 - 1) = headerFields b := by
        simp only [saveFields]
        rw [List.take_append_of_le_length (by omega), List.take_of_length_le (by omega)]
      rw [hget] at hm
      have hw := writeFields_pass (headerFields b) f hsz (by
        intro i hi
        exact hbefore i (by omega))
      have hshort2 : f.short (f.calls + (headerFields b).length) = some m := by
        rw [hl]; exact hshort
      have hs : save (some b) (some f) = some (report.REPORT_READ, some b, some
          { f with
            bytes := f.bytes ++ ((headerFields b).map fun cn => cn.1.take cn.2).flatten ++
              d.take m,
            calls := f.calls + (headerFields b).length + 1 }) := by
        simp only [save, hw, hdata]
        rw [if_neg (by omega)]
        simp only [BMP_WRITE]
        rw [fwrite_short d b.isize m _ hshort2 hm]
        simp
      refine ⟨_, hs, ?_, ?_⟩
      · show f.calls + (headerFields b).length + 1 = f.calls + 16
        omega
      · rw [hget, htake]
  · intro hf hne
    have hw := writeFields_pass (headerFields b) f hsz (by
      intro i hi
      exact hf i (by omega))
    have hlast : f.short (f.calls + (headerFields b).length) = none := by
      rw [hl]; exact hf 15 (by omega)
    have htake : List.take b.isize d = d := by
      rw [← hlen]; exact List.take_length d
    have hs : save (some b) (some f)
        = some (report.REPORT_NULL, some { b with data := none }, some
          { f with
            bytes := f.bytes ++ ((headerFields b).map fun cn => cn.1.take cn.2).flatten ++ d,
            calls := f.calls + (headerFields b).length + 1 }) := by
      simp only [save, hw, hdata]
      rw [if_neg (by omega)]
      simp only [BMP_WRITE]
      rw [fwrite_pass d b.isize _ hne hlast]
      simp only [Nat.lt_irrefl, decide_False, htake]
    refine ⟨_, hs, ?_, ?_⟩
    · show f.calls + (headerFields b).length + 1 = f.calls + 16
      omega
    · simp [saveFields, htake]

theorem C11_save_write_failure_witness :
    (∃ g, save (some canvas2) (some (cutStream 3 1))
          = some (report.REPORT_READ, some canvas2, some g) ∧
        g.calls = (cutStream 3 1).calls + 3 ∧
        g.bytes = (cutStream 3 1).bytes ++
          (((saveFields canvas2 (List.replicate 16 0xff)).take (3 - 1)).map
            fun cn => cn.1.take cn.2).flatten ++
          ((saveFields canvas2 (List.replicate 16 0xff)).getD (3 - 1) ([], 0)).1.take 1) ∧
    (∃ g, save (some canvas2) (some openStream)
          = some (report.REPORT_NULL, some { canvas2 with data := none }, some g) ∧
        g.calls = openStream.calls + 16 ∧
        g.bytes = openStream.bytes ++
          ((saveFields canvas2 (List.replicate 16 0xff)).map fun cn => cn.1.take cn.2).flatten) :=
  ⟨(C11_save_write_failure canvas2 (List.replicate 16 0xff) (cutStream 3 1) rfl rfl).1 3 1
      (by decide) (by decide) (by decide) rfl (by decide),
   (C11_save_write_failure canvas2 (List.replicate 16 0xff) openStream rfl rfl).2
      (fun _ _ => rfl) (by decide)⟩

/-! ## Arguments of `create` -/

/-- Claim C14 fails as stated: with a valid handle, `create` with width 0 and
height 0 returns `REPORT_NULL` when the allocation succeeds and `REPORT_ALLOC` when
it fails, never `REPORT_ARGS`. -/
theorem C14_create_zero_counterexample :
    (create (some blank) 0 0 true).1 = report.REPORT_NULL ∧
      (create (some blank) 0 0 false).1 = report.REPORT_ALLOC ∧
      ¬ ((create (some blank) 0 0 true).1 = report.REPORT_ARGS) ∧
      ¬ ((create (some blank) 0 7 true).1 = report.REPORT_ARGS) ∧
      ¬ ((create (some blank) 7 0 true).1 = report.REPORT_ARGS) := by
  decide

/-- Claim C14, amended: `create` returns `REPORT_ARGS` exactly when the handle is
`NULL`; with a valid handle and width 0 or height 0 it computes a pixel-data size
of 0 and returns `REPORT_NULL` with an empty block when the allocation succeeds,
`REPORT_ALLOC` when it fails. -/
theorem C14_create_args (p : Option bitmap) (w h : Nat) (ok : Bool) :
    ((create p w h ok).1 = report.REPORT_ARGS ↔ p = none) ∧
    ((w = 0 ∨ h = 0) → ∀ b0, ∃ b,
      create (some b0) w h true = (report.REPORT_NULL, some b) ∧
      b.isize = 0 ∧ b.data = some [] ∧
      create (some b0) w h false = (report.REPORT_ALLOC, some { b with data := none })) := by
  constructor
  · cases p with
    | none => simp [create]
    | some b0 =>
      rw [create_some]
      cases ok <;> simp
  · intro hz b0
    have hsz : u32 (h * stride w) = 0 := by
      rcases hz with hz | hz
      · subst hz
        have : stride 0 = 0 := by decide
        rw [this]
        rfl
      · subst hz
        rw [Nat.zero_mul]
        rfl
    refine ⟨_, create_some b0 w h true, hsz, ?_, ?_⟩
    · simp [hsz]
    · rw [create_some]
      simp

theorem C14_create_args_witness :
    ∃ b, create (some blank) 0 5 true = (report.REPORT_NULL, some b) ∧
      b.isize = 0 ∧ b.data = some [] ∧
      create (some blank) 0 5 false = (report.REPORT_ALLOC, some { b with data := none }) :=
  (C14_create_args none 0 5 true).2 (Or.inl rfl) blank

/-! ## Safety of the stores of `putpixel` -/

/-- Writes accepted by `putpixel` on a canvas whose sizes did not wrap fall inside
the block. -/
theorem putpixel_offsets_inside (w h x y : Nat) (hw : 3 * w + 3 < 2 ^ 31)
    (hsz : h * stride w < 2 ^ 32) (hx : x < w) (hy : y < h) :
    BMP_CONVERT 0x18 x + u32 (stride w * y) + 2 < u32 (h * stride w) := by
  have hxs := three_mul_lt_stride w x hw hx
  have hrow := row_end_le (stride w) h y hy
  have hconv : BMP_CONVERT 0x18 x = 3 * x := by
    simp only [BMP_CONVERT, u32, CHAR_BIT]
    rw [Nat.mod_eq_of_lt (by omega)]
    omega
  have h1 : u32 (stride w * y) = stride w * y := Nat.mod_eq_of_lt (by omega)
  have h2 : u32 (h * stride w) = h * stride w := Nat.mod_eq_of_lt hsz
  rw [hconv, h1, h2]
  omega

/-- Claim C15 does not hold on the code: for width 1 and height `2 ^ 30`, `create`
succeeds with `isize = 0` (the product `2 ^ 30 * 4` wraps) and an empty block; the
cell `(0, 0)` passes the range check of `putpixel`, the stride computed is 4, and
the offsets 0, 1, 2 of the three stores are not below `isize`: the stores fall
outside the block and the execution is undefined. -/
theorem C15_putpixel_store_outside :
    ∃ b, create (some blank) 1 1073741824 true = (report.REPORT_NULL, some b) ∧
      b.isize = 0 ∧ b.data = some [] ∧
      (0 < toUInt32 b.iwidth ∧ 0 < toUInt32 b.iheight) ∧
      (BMP_CONVERT_int b.idepth b.iwidth).bind BMP_ROUND_int = some 4 ∧
      ¬ (BMP_CONVERT b.idepth 0 + u32 (toUInt32 4 * 0) < b.isize) ∧
      putpixel (some b) 0 0 1 2 3 = none := by
  refine ⟨_, create_some blank 1 1073741824 true, ?_, ?_, ?_, ?_, ?_, ?_⟩ <;> decide

/-! ## The two stride computations -/

/-- Claim C17: for every width `w` with `1 ≤ w` and `3 * w + 3 < 2 ^ 31`, the stride
that `putpixel` computes in `int` from the stored `iwidth` and converts to
`uint32_t` equals the stride that `create` computed from the unsigned width when
sizing the block. -/
theorem C17_stride_agree (b0 : bitmap) (w h : Nat) (ok : Bool) (_h1 : 1 ≤ w)
    (hw : 3 * w + 3 < 2 ^ 31) :
    ∃ b s, (create (some b0) w h ok).2 = some b ∧
      (BMP_CONVERT_int b.idepth b.iwidth).bind BMP_ROUND_int = some s ∧
      toUInt32 s = BMP_ROUND (BMP_CONVERT b.idepth w) ∧
      b.isize = u32 (h * toUInt32 s) := by
  have hs := signed_stride w hw
  have hlt : stride w < 2 ^ 32 := by
    rw [stride_eq_of_small w (by omega)]
    omega
  refine ⟨_, ((stride w : Nat) : Int), by rw [create_some], ?_, ?_, ?_⟩
  · show (BMP_CONVERT_int 0x18 (toInt32 w)).bind BMP_ROUND_int = _
    rw [toInt32_of_small w (by omega)]
    exact hs
  · rw [toUInt32_natCast _ hlt]
    rfl
  · rw [toUInt32_natCast _ hlt]

theorem C17_stride_agree_witness :
    ∃ b s, (create (some blank) 100 100 true).2 = some b ∧
      (BMP_CONVERT_int b.idepth b.iwidth).bind BMP_ROUND_int = some s ∧
      toUInt32 s = BMP_ROUND (BMP_CONVERT b.idepth 100) ∧
      b.isize = u32 (100 * toUInt32 s) :=
  C17_stride_agree blank 100 100 true (by decide) (by decide)

/-! ## Frame of `putpixel` and row padding -/

theorem pixel_ranges_disjoint (s x y x2 y2 k k2 : Nat) (hs : 3 * x + 2 < s)
    (hs2 : 3 * x2 + 2 < s) (hne : (x2, y2) ≠ (x, y)) (hk : k < 3) (hk2 : k2 < 3) :
    3 * x2 + s * y2 + k2 ≠ 3 * x + s * y + k := by
  intro heq
  have h1 := (offset_decode s x y (3 * x + s * y + k) hs).mpr ⟨by omega, by omega⟩
  have h2 := (offset_decode s x2 y2 (3 * x + s * y + k) hs2).mpr ⟨by omega, by omega⟩
  have hx2 : x2 = x := h2.2.symm.trans h1.2
  have hy2 : y2 = y := h2.1.symm.trans h1.1
  exact hne (by rw [hx2, hy2])

/-- Claim C16 fails as stated: on the buffer created with width 1 and height
`2 ^ 30 + 1` (a block of 4 bytes, the size wrapping), the cells `(0, 0)` and
`(0, 2 ^ 30)` are distinct and in range, `putpixel` succeeds on both, and the
second call stores at offset `(4 * 2 ^ 30) mod 2 ^ 32 = 0`: it overwrites the three
bytes of pixel `(0, 0)`. -/
theorem C16_putpixel_alias_counterexample :
    (create (some blank) 1 1073741825 true).2.bind bitmap.data = some [255, 255, 255, 255] ∧
      ((0 : Nat), (0 : Nat)) ≠ (0, 1073741824) ∧ (0 < 1 ∧ 1073741824 < 1073741825) ∧
      (putpixel (create (some blank) 1 1073741825 true).2 0 0 1 2 3).map
          (fun r => (r.1, r.2.bind bitmap.data))
        = some (report.REPORT_NULL, some [3, 2, 1, 255]) ∧
      ((putpixel (create (some blank) 1 1073741825 true).2 0 0 1 2 3).bind
          (fun r => putpixel r.2 0 1073741824 4 5 6)).map
          (fun r => (r.1, r.2.bind bitmap.data))
        = some (report.REPORT_NULL, some [6, 5, 4, 255]) := by
  decide

/-- Claim C16, amended: on every buffer created with `3 * w + 3 < 2 ^ 31` and
`h * stride w < 2 ^ 32` (whatever pixel data it holds), `putpixel` at an in-range
`(x, y)` succeeds and changes only the three bytes at `3 * x + stride * y`; the
3-byte ranges of two distinct in-range cells are disjoint, so the bytes of every
other pixel keep their value; and writing the same pixel again with the same color
changes nothing. -/
theorem C16_putpixel_frame (b0 : bitmap) (w h x y red green blue : Nat) (d : List Nat)
    (hw : 3 * w + 3 < 2 ^ 31) (hsz : h * stride w < 2 ^ 32) (hd : d.length = h * stride w)
    (hx : x < w) (hy : y < h) :
    ∃ b e, create (some b0) w h true = (report.REPORT_NULL, some b) ∧
      b.data.map List.length = some (d).length ∧
      putpixel (some { b with data := some (d) }) x y red green blue
        = some (report.REPORT_NULL, some { b with data := some e }) ∧
      e.length = (d).length ∧
      (∀ o, (o < 3 * x + stride w * y ∨ 3 * x + stride w * y + 2 < o) →
        e[o]? = (d)[o]?) ∧
      (∀ x2 y2 k k2, x2 < w → y2 < h → (x2, y2) ≠ (x, y) → k < 3 → k2 < 3 →
        3 * x2 + stride w * y2 + k2 ≠ 3 * x + stride w * y + k) ∧
      (∀ x2 y2 k2, x2 < w → y2 < h → (x2, y2) ≠ (x, y) → k2 < 3 →
        e[3 * x2 + stride w * y2 + k2]? = (d)[3 * x2 + stride w * y2 + k2]?) ∧
      putpixel (some { b with data := some e }) x y red green blue
        = some (report.REPORT_NULL, some { b with data := some e }) := by
  have hxs := three_mul_lt_stride w x hw hx
  have hh : h < 2 ^ 32 := by
    have := Nat.le_mul_of_pos_right h (by omega : 0 < stride w)
    omega
  obtain ⟨b, hb, hbl, hc⟩ := canvas_create b0 w h d hw hh hsz hd
  obtain ⟨e, hp, hlen, hget⟩ := putpixel_canvas w h _ d hc rfl x y red green blue
  rw [if_pos ⟨hx, hy⟩] at hp
  have hc2 := canvas_data w h _ d e hc rfl hlen
  obtain ⟨e2, hp2, hlen2, hget2⟩ := putpixel_canvas w h _ e hc2 rfl x y red green blue
  rw [if_pos ⟨hx, hy⟩] at hp2
  have hframe : ∀ o, (o < 3 * x + stride w * y ∨ 3 * x + stride w * y + 2 < o) →
      e[o]? = d[o]? := by
    intro o ho
    rw [hget, if_neg]
    rintro ⟨-, -, h1, h2⟩
    have := (offset_decode (stride w) x y o hxs).mp ⟨h1, h2⟩
    omega
  have hdisj : ∀ x2 y2 k k2, x2 < w → y2 < h → (x2, y2) ≠ (x, y) → k < 3 → k2 < 3 →
      3 * x2 + stride w * y2 + k2 ≠ 3 * x + stride w * y + k := by
    intro x2 y2 k k2 hx2 _ hne hk hk2
    exact pixel_ranges_disjoint (stride w) x y x2 y2 k k2 hxs
      (three_mul_lt_stride w x2 hw hx2) hne hk hk2
  have hsame : e2 = e := by
    apply List.ext_getElem?
    intro o
    rw [hget2, hget]
    split <;> rfl
  refine ⟨b, e, hb, hbl, hp, hlen, hframe, hdisj, ?_, ?_⟩
  · intro x2 y2 k2 hx2 hy2 hne hk2
    apply hframe
    have h0 := hdisj x2 y2 0 k2 hx2 hy2 hne (by omega) hk2
    have h1 := hdisj x2 y2 1 k2 hx2 hy2 hne (by omega) hk2
    have h2 := hdisj x2 y2 2 k2 hx2 hy2 hne (by omega) hk2
    omega
  · rw [hsame] at hp2
    exact hp2

theorem C16_putpixel_frame_witness :
    ∃ b e, create (some blank) 2 2 true = (report.REPORT_NULL, some b) ∧
      b.data.map List.length = some (List.replicate 16 255).length ∧
      putpixel (some { b with data := some (List.replicate 16 255) }) 1 1 10 20 30
        = some (report.REPORT_NULL, some { b with data := some e }) ∧
      e.length = (List.replicate 16 255).length ∧
      (∀ o, (o < 3 * 1 + stride 2 * 1 ∨ 3 * 1 + stride 2 * 1 + 2 < o) →
        e[o]? = (List.replicate 16 255)[o]?) ∧
      (∀ x2 y2 k k2, x2 < 2 → y2 < 2 → (x2, y2) ≠ (1, 1) → k < 3 → k2 < 3 →
        3 * x2 + stride 2 * y2 + k2 ≠ 3 * 1 + stride 2 * 1 + k) ∧
      (∀ x2 y2 k2, x2 < 2 → y2 < 2 → (x2, y2) ≠ (1, 1) → k2 < 3 →
        e[3 * x2 + stride 2 * y2 + k2]? = (List.replicate 16 255)[3 * x2 + stride 2 * y2 + k2]?) ∧
      putpixel (some { b with data := some e }) 1 1 10 20 30
        = some (report.REPORT_NULL, some { b with data := some e }) :=
  C16_putpixel_frame blank 2 2 1 1 10 20 30 (List.replicate 16 255) (by decide) (by decide)
    (by decide) (by decide) (by decide)

/-- A byte that belongs to no pixel of the canvas is kept by every sequence of
`putpixel` and `draw` calls, none of which is undefined. -/
theorem runOps_canvas (w h : Nat) (ops : List Op) (b : bitmap) (d : List Nat)
    (hc : Canvas w h b) (hd : b.data = some d) :
    ∃ e, runOps ops (some b) = some (some { b with data := some e }) ∧
      e.length = d.length ∧
      ∀ o, (¬ ∃ x y, x < w ∧ y < h ∧ o / stride w = y ∧ o % stride w / 3 = x) →
        e[o]? = d[o]? := by
  induction ops generalizing b d with
  | nil =>
    refine ⟨d, ?_, rfl, fun _ _ => rfl⟩
    simp only [runOps, List.foldlM_nil]
    show some (some b) = _
    congr 2
    cases b
    simp only at hd
    simp [hd]
  | cons op ops ih =>
    have hstep : ∃ e1 rep, applyOp (some b) op = some (rep, some { b with data := some e1 }) ∧
        e1.length = d.length ∧
        ∀ o, (¬ ∃ x y, x < w ∧ y < h ∧ o / stride w = y ∧ o % stride w / 3 = x) →
          e1[o]? = d[o]? := by
      cases op with
      | putpixel x y red green blue =>
        obtain ⟨e1, hp, hl, hg⟩ := putpixel_canvas w h b d hc hd x y red green blue
        refine ⟨e1, _, hp, hl, ?_⟩
        intro o hno
        rw [hg, if_neg]
        rintro ⟨h1, h2, h3, h4⟩
        exact hno ⟨x, y, h1, h2, h3, h4⟩
      | draw x y size red green blue =>
        obtain ⟨e1, hp, hl, hg⟩ := draw_canvas w h b d hc hd x y size red green blue
        refine ⟨e1, _, hp, hl, ?_⟩
        intro o hno
        rw [hg, if_neg]
        rintro ⟨c, -, h1, h2, h3, h4⟩
        exact hno ⟨c.1, c.2, h1, h2, h3, h4⟩
    obtain ⟨e1, rep, hp, hl1, hg1⟩ := hstep
    obtain ⟨e, hr, hl, hg⟩ := ih { b with data := some e1 } e1
      (canvas_data w h b d e1 hc hd hl1) rfl
    refine ⟨e, ?_, by rw [hl, hl1], ?_⟩
    · simp only [runOps, List.foldlM_cons, hp, Option.map_some']
      exact hr
    · intro o hno
      rw [hg o hno, hg1 o hno]

theorem padding_not_pixel (w h s y c : Nat) (hc1 : 3 * w ≤ c) (hc2 : c < s) :
    ¬ ∃ x y2, x < w ∧ y2 < h ∧ (s * y + c) / s = y2 ∧ (s * y + c) % s / 3 = x := by
  rintro ⟨x, y2, hx, -, -, h2⟩
  rw [Nat.add_comm, Nat.add_mul_mod_self_left, Nat.mod_eq_of_lt hc2] at h2
  omega

theorem canvas_create_data (b0 : bitmap) (w h : Nat) (hw : 3 * w + 3 < 2 ^ 31)
    (hh : h < 2 ^ 32) (hsz : h * stride w < 2 ^ 32) :
    ∃ b, create (some b0) w h true = (report.REPORT_NULL, some b) ∧
      b.data = some (List.replicate (h * stride w) 0xff) ∧ Canvas w h b ∧
      b.isize = h * stride w ∧ b.ftype = [0x42, 0x4D] ∧
      toUInt32 b.iwidth = w ∧ toUInt32 b.iheight = h := by
  have hu : u32 (h * stride w) = h * stride w := Nat.mod_eq_of_lt hsz
  refine ⟨_, create_some b0 w h true, ?_, ⟨rfl, toInt32_of_small w (by omega),
    toUInt32_toInt32 h hh, hw, hsz, ?_⟩, hu, rfl, toUInt32_toInt32 w (by omega),
    toUInt32_toInt32 h hh⟩
  · simp [hu]
  · simp [hu]

theorem header_flat_length (b : bitmap) (hft : b.ftype.length = 2) :
    ((headerFields b).map fun cn => cn.1.take cn.2).flatten.length = 54 := by
  simp [headerFields, bytesLE, hft]

/-- Claim C13 fails as stated: on the buffer created with width 3 and height
715827884 (stride 12, the size `12 * 715827884` wrapping to 16 bytes), `putpixel`
at the in-range cell `(2, 715827883)` succeeds and stores at offset
`6 + (12 * 715827883) mod 2 ^ 32 = 10`: the bytes at offsets 10 and 11, which are
padding bytes of row 0 (`9 ≤ c < 12`), are no longer `0xFF`. -/
theorem C13_padding_counterexample :
    (create (some blank) 3 715827884 true).2.bind bitmap.data
        = some (List.replicate 16 255) ∧
      stride 3 = 12 ∧ (0 < 715827884 ∧ 3 * 3 ≤ 10 ∧ 10 < stride 3) ∧
      (2 < 3 ∧ 715827883 < 715827884) ∧
      (putpixel (create (some blank) 3 715827884 true).2 2 715827883 1 2 3).map
          (fun r => (r.1, r.2.bind bitmap.data))
        = some (report.REPORT_NULL,
            some [255, 255, 255, 255, 255, 255, 255, 255, 255, 255, 3, 2, 1, 255, 255, 255]) ∧
      (runOps [Op.putpixel 2 715827883 1 2 3] (create (some blank) 3 715827884 true).2).bind
          (fun q => (q.bind bitmap.data).bind (fun d => d[stride 3 * 0 + 10]?))
        = some 3 := by
  decide

/-- Claim C13, amended: for every buffer produced by `create` with
`3 * w + 3 < 2 ^ 31` and `h * stride w < 2 ^ 32` and every finite sequence of
`putpixel` and `draw` calls with arbitrary arguments, no call is undefined and
every padding byte (offset `stride * y + c` with `y < h` and `3 * w ≤ c < stride`)
is still `0xFF`; and `save` on a stream that accepts every write puts `0xFF` at
the place of each padding byte in the file. -/
theorem C13_padding_kept (b0 : bitmap) (w h : Nat) (ops : List Op) (f : FILE)
    (hw : 3 * w + 3 < 2 ^ 31) (hh : h < 2 ^ 32) (hsz : h * stride w < 2 ^ 32)
    (hf : ∀ i, f.short i = none) :
    ∃ b e, create (some b0) w h true = (report.REPORT_NULL, some b) ∧
      runOps (ops) (some b) = some (some { b with data := some e }) ∧
      e.length = h * stride w ∧
      (∀ y c, y < h → 3 * w ≤ c → c < stride w →
        e[stride w * y + c]? = some 0xFF) ∧
      (0 < h * stride w →
        ∃ g, save (some { b with data := some e }) (some (f))
            = some (report.REPORT_NULL, some { b with data := none }, some g) ∧
          ∀ y c, y < h → 3 * w ≤ c → c < stride w →
            g.bytes[(f).bytes.length + 54 + (stride w * y + c)]? = some 0xFF) := by
  obtain ⟨b, hb, hdata, hc, hisize, hft, -, -⟩ := canvas_create_data b0 w h hw hh hsz
  obtain ⟨e, hrun, hlen, hkeep⟩ := runOps_canvas w h ops b _ hc hdata
  rw [List.length_replicate] at hlen
  have hpad : ∀ y c, y < h → 3 * w ≤ c → c < stride w →
      e[stride w * y + c]? = some 0xFF := by
    intro y c hy hc1 hc2
    rw [hkeep _ (padding_not_pixel w h (stride w) y c hc1 hc2)]
    have hrow := row_end_le (stride w) h y hy
    rw [List.getElem?_eq_getElem (by rw [List.length_replicate]; omega)]
    simp
  refine ⟨b, e, hb, hrun, hlen, hpad, ?_⟩
  intro hpos
  have hs := save_full { b with data := some e } f e rfl (by rw [hlen]; exact hisize.symm)
    (by show b.isize ≠ 0; omega) hf
  refine ⟨_, hs, ?_⟩
  intro y c hy hc1 hc2
  have hH := header_flat_length { b with data := some e } (by show b.ftype.length = 2; rw [hft]; rfl)
  show (f.bytes ++ _ ++ e)[f.bytes.length + 54 + (stride w * y + c)]? = some 0xFF
  rw [List.getElem?_append_right (by simp only [List.length_append, hH]; omega)]
  simp only [List.length_append, hH]
  rw [show f.bytes.length + 54 + (stride w * y + c) - (f.bytes.length + 54)
    = stride w * y + c by omega]
  exact hpad y c hy hc1 hc2

theorem C13_padding_kept_witness :
    ∃ b e, create (some blank) 1 2 true = (report.REPORT_NULL, some b) ∧
      runOps ([Op.draw 0 0 5 10 20 30, Op.putpixel 0 1 1 2 3, Op.putpixel 7 7 1 2 3]) (some b) = some (some { b with data := some e }) ∧
      e.length = 2 * stride 1 ∧
      (∀ y c, y < 2 → 3 * 1 ≤ c → c < stride 1 →
        e[stride 1 * y + c]? = some 0xFF) ∧
      (0 < 2 * stride 1 →
        ∃ g, save (some { b with data := some e }) (some (openStream))
            = some (report.REPORT_NULL, some { b with data := none }, some g) ∧
          ∀ y c, y < 2 → 3 * 1 ≤ c → c < stride 1 →
            g.bytes[(openStream).bytes.length + 54 + (stride 1 * y + c)]? = some 0xFF) :=
  C13_padding_kept blank 1 2 [Op.draw 0 0 5 10 20 30, Op.putpixel 0 1 1 2 3,
    Op.putpixel 7 7 1 2 3] openStream (by decide) (by decide) (by decide) (fun _ => rfl)

/-! ## The tile loops of `main` -/

theorem dvd_step_le (s a b : Nat) (ha : s ∣ a) (hb : s ∣ b) (hlt : a < b) : a + s ≤ b := by
  obtain ⟨k, rfl⟩ := ha
  obtain ⟨l, rfl⟩ := hb
  have hkl : k < l := Nat.lt_of_mul_lt_mul_left hlt
  have := Nat.mul_le_mul_left s (Nat.succ_le_of_lt hkl)
  rw [Nat.mul_succ] at this
  exact this

theorem int32_natCast (n : Nat) (h : n < 2 ^ 31) : int32? (n : Int) = some (n : Int) := by
  unfold int32?
  rw [if_pos (by omega)]

/-- One `draw` call of the tile loops on a canvas: it completes, keeps the header
and the size of the block, and reports `REPORT_NULL` exactly when the tile fits. -/
theorem draw_tile (w h s i j red green blue : Nat) (B : bitmap) (d0 e : List Nat)
    (hB : Canvas w h B) (hd0 : B.data = some d0) (he : e.length = d0.length)
    (hs : 1 ≤ s) (hi : i + s < 2 ^ 31) (hj : j + s < 2 ^ 31) :
    ∃ e2, draw (some { B with data := some e }) (toUInt32 (i : Int)) (toUInt32 (j : Int))
          (toUInt32 (s : Int)) red green blue
        = some (if i + s ≤ w ∧ j + s ≤ h then report.REPORT_NULL else report.REPORT_ARGS,
            some { B with data := some e2 }) ∧
      e2.length = d0.length := by
  have hc := canvas_data w h B d0 e hB hd0 he
  obtain ⟨n, rfl⟩ : ∃ n, s = n + 1 := ⟨s - 1, by omega⟩
  rw [toUInt32_natCast i (by omega), toUInt32_natCast j (by omega),
    toUInt32_natCast (n + 1) (by omega)]
  obtain ⟨e2, hp, hlen, -⟩ := draw_canvas w h _ e hc rfl i j (n + 1) red green blue
  rw [lastReport_cells] at hp
  have h1 : u32 (i + n) = i + n := Nat.mod_eq_of_lt (by omega)
  have h2 : u32 (j + n) = j + n := Nat.mod_eq_of_lt (by omega)
  rw [h1, h2] at hp
  refine ⟨e2, ?_, by rw [hlen, he]⟩
  rw [hp]
  have hiff : (i + n < w ∧ j + n < h) ↔ (i + (n + 1) ≤ w ∧ j + (n + 1) ≤ h) := by omega
  simp only [hiff]

theorem tileRow_done (rnd : Nat → Nat) (height square : Int) (maxvar red green blue : Nat)
    (i j : Int) (fuel n : Nat) (src : Option bitmap) (hj : ¬ j < height) :
    tileRow rnd height square maxvar red green blue i (fuel + 1) j (n, src)
      = Exec.done (report.REPORT_NULL, n, src) := by
  simp only [tileRow]
  rw [if_neg hj]

theorem tileRow_abort (rnd : Nat → Nat) (height square : Int) (maxvar red green blue : Nat)
    (i j : Int) (fuel n : Nat) (src src2 : Option bitmap) (error : report) (hj : j < height)
    (hmax : maxvar ≠ 0)
    (hdraw : draw src (toUInt32 i) (toUInt32 j) (toUInt32 square)
        (add red (rnd n % maxvar % (UCHAR_MAX + 1)))
        (add blue (rnd n % maxvar % (UCHAR_MAX + 1)))
        (add green (rnd n % maxvar % (UCHAR_MAX + 1))) = some (error, src2))
    (herr : error ≠ report.REPORT_NULL) :
    tileRow rnd height square maxvar red green blue i (fuel + 1) j (n, src)
      = Exec.done (error, n + 1, src2) := by
  simp only [tileRow]
  rw [if_pos hj, if_neg hmax]
  simp only [hdraw]
  rw [if_pos herr]

theorem tileRow_next (rnd : Nat → Nat) (height square : Int) (maxvar red green blue : Nat)
    (i j j2 : Int) (fuel n : Nat) (src src2 : Option bitmap) (hj : j < height)
    (hmax : maxvar ≠ 0)
    (hdraw : draw src (toUInt32 i) (toUInt32 j) (toUInt32 square)
        (add red (rnd n % maxvar % (UCHAR_MAX + 1)))
        (add blue (rnd n % maxvar % (UCHAR_MAX + 1)))
        (add green (rnd n % maxvar % (UCHAR_MAX + 1))) = some (report.REPORT_NULL, src2))
    (hnext : int32? (j + square) = some j2) :
    tileRow rnd height square maxvar red green blue i (fuel + 1) j (n, src)
      = tileRow rnd height square maxvar red green blue i fuel j2 (n + 1, src2) := by
  rw [tileRow]
  rw [if_pos hj, if_neg hmax]
  simp only [hdraw, hnext, ne_eq, not_true_eq_false, if_false]

theorem tileLoop_done (rnd : Nat → Nat) (width height square : Int)
    (maxvar red green blue : Nat) (i : Int) (fuel : Nat) (st : Nat × Option bitmap)
    (hi : ¬ i < width) :
    tileLoop rnd width height square maxvar red green blue (fuel + 1) i st
      = Exec.done (report.REPORT_NULL, st.1, st.2) := by
  simp only [tileLoop]
  rw [if_neg hi]

theorem tileLoop_abort (rnd : Nat → Nat) (width height square : Int)
    (maxvar red green blue : Nat) (i : Int) (fuel n : Nat) (st : Nat × Option bitmap)
    (src2 : Option bitmap) (error : report) (hi : i < width)
    (hrow : tileRow rnd height square maxvar red green blue i fuel 0 st
      = Exec.done (error, n, src2))
    (herr : error ≠ report.REPORT_NULL) :
    tileLoop rnd width height square maxvar red green blue (fuel + 1) i st
      = Exec.done (error, n, src2) := by
  simp only [tileLoop]
  rw [if_pos hi]
  simp only [hrow]
  rw [if_pos herr]

theorem tileLoop_next (rnd : Nat → Nat) (width height square : Int)
    (maxvar red green blue : Nat) (i i2 : Int) (fuel n : Nat) (st : Nat × Option bitmap)
    (src2 : Option bitmap) (hi : i < width)
    (hrow : tileRow rnd height square maxvar red green blue i fuel 0 st
      = Exec.done (report.REPORT_NULL, n, src2))
    (hnext : int32? (i + square) = some i2) :
    tileLoop rnd width height square maxvar red green blue (fuel + 1) i st
      = tileLoop rnd width height square maxvar red green blue fuel i2 (n, src2) := by
  rw [tileLoop]
  rw [if_pos hi]
  simp only [hrow, hnext, ne_eq, not_true_eq_false, if_false]

/-- The inner loop of `main` on a canvas, from a row `j` that is a multiple of the
tile size: with enough fuel it ends, with `REPORT_NULL` when every remaining tile
of the column fits and otherwise with `REPORT_ARGS`, returned by `draw` on the
first tile of the column that does not fit. -/
theorem tileRow_sheet (rnd : Nat → Nat) (w h s maxvar red green blue i : Nat) (B : bitmap)
    (d0 : List Nat) (hB : Canvas w h B) (hd0 : B.data = some d0) (hs : 1 ≤ s)
    (hmax : 1 ≤ maxvar) (hbw : w + s < 2 ^ 31) (hbh : h + s < 2 ^ 31) (hi : i < w) :
    ∀ (m j n : Nat) (e : List Nat) (fuel : Nat), h - j ≤ m → m < fuel → j ≤ h → s ∣ j →
      e.length = d0.length →
      ∃ n2 e2,
        tileRow rnd (h : Int) (s : Int) maxvar red green blue (i : Int) fuel (j : Int)
            (n, some { B with data := some e })
          = Exec.done (if j = h ∨ (i + s ≤ w ∧ s ∣ h) then report.REPORT_NULL
              else report.REPORT_ARGS, n2, some { B with data := some e2 }) ∧
        e2.length = d0.length ∧
        (¬ (j = h ∨ (i + s ≤ w ∧ s ∣ h)) →
          ∃ jA e1 var, j ≤ jA ∧ s ∣ jA ∧ jA < h ∧ ¬ (i + s ≤ w ∧ jA + s ≤ h) ∧
            (∀ j2, j ≤ j2 → j2 < jA → s ∣ j2 → i + s ≤ w ∧ j2 + s ≤ h) ∧
            draw (some { B with data := some e1 }) i jA s
                (add red var) (add blue var) (add green var)
              = some (report.REPORT_ARGS, some { B with data := some e2 })) := by
  intro m
  induction m with
  | zero =>
    intro j n e fuel hm hfuel hjh _ he
    obtain ⟨f, rfl⟩ : ∃ f, fuel = f + 1 := ⟨fuel - 1, by omega⟩
    have hj : j = h := by omega
    refine ⟨n, e, ?_, he, fun hno => absurd (Or.inl hj) hno⟩
    rw [if_pos (Or.inl hj)]
    exact tileRow_done rnd _ _ maxvar red green blue _ _ f n _
      (by rw [Int.ofNat_lt]; omega)
  | succ m ih =>
    intro j n e fuel hm hfuel hjh hdj he
    obtain ⟨f, rfl⟩ : ∃ f, fuel = f + 1 := ⟨fuel - 1, by omega⟩
    by_cases hj : j = h
    · refine ⟨n, e, ?_, he, fun hno => absurd (Or.inl hj) hno⟩
      rw [if_pos (Or.inl hj)]
      exact tileRow_done rnd _ _ maxvar red green blue _ _ f n _
        (by rw [Int.ofNat_lt]; omega)
    · have hlt : j < h := by omega
      obtain ⟨e2, hdraw, hlen2⟩ := draw_tile w h s i j
        (add red (rnd n % maxvar % (UCHAR_MAX + 1)))
        (add blue (rnd n % maxvar % (UCHAR_MAX + 1)))
        (add green (rnd n % maxvar % (UCHAR_MAX + 1))) B d0 e hB hd0 he hs
        (by omega) (by omega)
      by_cases hfit : i + s ≤ w ∧ j + s ≤ h
      · rw [if_pos hfit] at hdraw
        obtain ⟨n2, e3, hrow, hlen3, hab⟩ := ih (j + s) (n + 1) e2 f (by omega) (by omega)
          hfit.2 (Nat.dvd_add hdj (Nat.dvd_refl s)) hlen2
        have hiff : (j + s = h ∨ (i + s ≤ w ∧ s ∣ h)) ↔ (j = h ∨ (i + s ≤ w ∧ s ∣ h)) := by
          constructor
          · rintro (h1 | h1)
            · right
              exact ⟨hfit.1, h1 ▸ Nat.dvd_add hdj (Nat.dvd_refl s)⟩
            · exact Or.inr h1
          · rintro (h1 | h1)
            · exact absurd h1 hj
            · exact Or.inr h1
        simp only [hiff] at hrow hab
        refine ⟨n2, e3, ?_, hlen3, ?_⟩
        · have hcast : (j : Int) + (s : Int) = ((j + s : Nat) : Int) := by push_cast; rfl
          rw [tileRow_next rnd _ _ maxvar red green blue _ _ ((j + s : Nat) : Int) f n _ _
            (by rw [Int.ofNat_lt]; exact hlt) (by omega) hdraw
            (by rw [hcast]; exact int32_natCast (j + s) (by omega))]
          exact hrow
        · intro hno
          obtain ⟨jA, e1, var, h1, h2, h3, h4, h5, h6⟩ := hab hno
          refine ⟨jA, e1, var, by omega, h2, h3, h4, ?_, h6⟩
          intro j2 hj2 hj2A hdj2
          by_cases hjj : j2 = j
          · subst hjj
            exact hfit
          · exact h5 j2 (dvd_step_le s j j2 hdj hdj2 (by omega)) hj2A hdj2
      · rw [if_neg hfit] at hdraw
        have hno : ¬ (j = h ∨ (i + s ≤ w ∧ s ∣ h)) := by
          rintro (h1 | h1)
          · exact hj h1
          · exact hfit ⟨h1.1, dvd_step_le s j h hdj h1.2 hlt⟩
        refine ⟨n + 1, e2, ?_, hlen2, ?_⟩
        · rw [if_neg hno]
          exact tileRow_abort rnd _ _ maxvar red green blue _ _ f n _ _ _
            (by rw [Int.ofNat_lt]; exact hlt) (by omega) hdraw (by decide)
        · intro _
          refine ⟨j, e, rnd n % maxvar % (UCHAR_MAX + 1), Nat.le_refl j, hdj, hlt, hfit,
            fun j2 h1 h2 _ => absurd h1 (by omega), ?_⟩
          rw [toUInt32_natCast i (by omega), toUInt32_natCast j (by omega),
            toUInt32_natCast s (by omega)] at hdraw
          exact hdraw

/-- The outer loop of `main` on a canvas, from a column `i` that is a multiple of
the tile size: with enough fuel it ends, with `REPORT_NULL` when the tile size
divides the width and the height (or no column is left) and otherwise with
`REPORT_ARGS`, returned by `draw` on the first tile, in the order of the loops,
that does not fit in the canvas. -/
theorem tileLoop_sheet (rnd : Nat → Nat) (w h s maxvar red green blue : Nat) (B : bitmap)
    (d0 : List Nat) (hB : Canvas w h B) (hd0 : B.data = some d0) (hs : 1 ≤ s)
    (hmax : 1 ≤ maxvar) (hbw : w + s < 2 ^ 31) (hbh : h + s < 2 ^ 31) (hh : 1 ≤ h) :
    ∀ (m i n : Nat) (e : List Nat) (fuel : Nat), w - i ≤ m → m + h + 1 < fuel → i ≤ w →
      s ∣ i → e.length = d0.length →
      ∃ n2 e2,
        tileLoop rnd (w : Int) (h : Int) (s : Int) maxvar red green blue fuel (i : Int)
            (n, some { B with data := some e })
          = Exec.done (if i = w ∨ (s ∣ w ∧ s ∣ h) then report.REPORT_NULL
              else report.REPORT_ARGS, n2, some { B with data := some e2 }) ∧
        e2.length = d0.length ∧
        (¬ (i = w ∨ (s ∣ w ∧ s ∣ h)) →
          ∃ iA jA e1 var, i ≤ iA ∧ s ∣ iA ∧ iA < w ∧ s ∣ jA ∧ jA < h ∧
            ¬ (iA + s ≤ w ∧ jA + s ≤ h) ∧
            (∀ i2 j2, s ∣ i2 → s ∣ j2 → i ≤ i2 → i2 < w → j2 < h →
              (i2 < iA ∨ (i2 = iA ∧ j2 < jA)) → i2 + s ≤ w ∧ j2 + s ≤ h) ∧
            draw (some { B with data := some e1 }) iA jA s
                (add red var) (add blue var) (add green var)
              = some (report.REPORT_ARGS, some { B with data := some e2 })) := by
  intro m
  induction m with
  | zero =>
    intro i n e fuel hm hfuel hiw _ he
    obtain ⟨f, rfl⟩ : ∃ f, fuel = f + 1 := ⟨fuel - 1, by omega⟩
    have hi : i = w := by omega
    refine ⟨n, e, ?_, he, fun hno => absurd (Or.inl hi) hno⟩
    rw [if_pos (Or.inl hi)]
    exact tileLoop_done rnd _ _ _ maxvar red green blue _ f _
      (by rw [Int.ofNat_lt]; omega)
  | succ m ih =>
    intro i n e fuel hm hfuel hiw hdi he
    obtain ⟨f, rfl⟩ : ∃ f, fuel = f + 1 := ⟨fuel - 1, by omega⟩
    by_cases hi : i = w
    · refine ⟨n, e, ?_, he, fun hno => absurd (Or.inl hi) hno⟩
      rw [if_pos (Or.inl hi)]
      exact tileLoop_done rnd _ _ _ maxvar red green blue _ f _
        (by rw [Int.ofNat_lt]; omega)
    · have hlt : i < w := by omega
      obtain ⟨n1, e1, hrow, hlen1, hab1⟩ :=
        tileRow_sheet rnd w h s maxvar red green blue i B d0 hB hd0 hs hmax hbw hbh hlt
          h 0 n e f (by omega) (by omega) (by omega) (Nat.dvd_zero s) he
      have h0 : ¬ (0 = h) := by omega
      by_cases hok : i + s ≤ w ∧ s ∣ h
      · rw [if_pos (Or.inr hok)] at hrow
        obtain ⟨n2, e2, hloop, hlen2, hab2⟩ := ih (i + s) n1 e1 f (by omega) (by omega)
          hok.1 (Nat.dvd_add hdi (Nat.dvd_refl s)) hlen1
        have hiff : (i + s = w ∨ (s ∣ w ∧ s ∣ h)) ↔ (i = w ∨ (s ∣ w ∧ s ∣ h)) := by
          constructor
          · rintro (h1 | h1)
            · right
              exact ⟨h1 ▸ Nat.dvd_add hdi (Nat.dvd_refl s), hok.2⟩
            · exact Or.inr h1
          · rintro (h1 | h1)
            · exact absurd h1 hi
            · exact Or.inr h1
        simp only [hiff] at hloop hab2
        refine ⟨n2, e2, ?_, hlen2, ?_⟩
        · have hcast : (i : Int) + (s : Int) = ((i + s : Nat) : Int) := by push_cast; rfl
          rw [tileLoop_next rnd _ _ _ maxvar red green blue _ ((i + s : Nat) : Int) f n1 _ _
            (by rw [Int.ofNat_lt]; exact hlt) hrow
            (by rw [hcast]; exact int32_natCast (i + s) (by omega))]
          exact hloop
        · intro hno
          obtain ⟨iA, jA, e3, var, g1, g2, g3, g4, g5, g6, g7, g8⟩ := hab2 hno
          refine ⟨iA, jA, e3, var, by omega, g2, g3, g4, g5, g6, ?_, g8⟩
          intro i2 j2 hdi2 hdj2 hi2 hi2w hj2h hbefore
          by_cases hii : i2 = i
          · subst hii
            refine ⟨hok.1, ?_⟩
            exact dvd_step_le s j2 h hdj2 hok.2 hj2h
          · exact g7 i2 j2 hdi2 hdj2 (dvd_step_le s i i2 hdi hdi2 (by omega)) hi2w hj2h
              hbefore
      · have hrno : ¬ (0 = h ∨ (i + s ≤ w ∧ s ∣ h)) := by
          rintro (h1 | h1)
          · exact h0 h1
          · exact hok h1
        rw [if_neg hrno] at hrow
        have hno : ¬ (i = w ∨ (s ∣ w ∧ s ∣ h)) := by
          rintro (h1 | h1)
          · exact hi h1
          · exact hok ⟨dvd_step_le s i w hdi h1.1 hlt, h1.2⟩
        refine ⟨n1, e1, ?_, hlen1, ?_⟩
        · rw [if_neg hno]
          exact tileLoop_abort rnd _ _ _ maxvar red green blue _ f n1 _ _ _
            (by rw [Int.ofNat_lt]; exact hlt) hrow (by decide)
        · intro _
          obtain ⟨jA, e3, var, g1, g2, g3, g4, g5, g6⟩ := hab1 hrno
          refine ⟨i, jA, e3, var, Nat.le_refl i, hdi, hlt, g2, g3, g4, ?_, g6⟩
          intro i2 j2 _ hdj2 hi2 _ _ hbefore
          rcases hbefore with hb | ⟨hb1, hb2⟩
          · omega
          · subst hb1
            exact g5 j2 (Nat.zero_le j2) hb2 hdj2

/-! ## `main` -/

theorem generate_abort (fuel : Nat) (width height square : Int) (maxvar : Nat)
    (rnd : Nat → Nat) (f : FILE) (mallocOk fcloseOk : Bool) (src src2 : Option bitmap)
    (error : report) (n : Nat)
    (hcreate : create (some blank) (toUInt32 width) (toUInt32 height) mallocOk
      = (report.REPORT_NULL, src))
    (hloop : tileLoop rnd width height square maxvar (rnd 0 % (UCHAR_MAX + 1))
        (rnd 1 % (UCHAR_MAX + 1)) (rnd 2 % (UCHAR_MAX + 1)) fuel 0 (3, src)
      = Exec.done (error, n, src2))
    (herr : error ≠ report.REPORT_NULL) :
    generate fuel width height square maxvar rnd (some f) mallocOk fcloseOk
      = Exec.done (EXIT_FAILURE, some f, notice error []) := by
  simp only [generate, hcreate, hloop]
  rw [if_pos trivial, if_pos herr]

theorem generate_saved (fuel : Nat) (width height square : Int) (maxvar : Nat)
    (rnd : Nat → Nat) (f : FILE) (mallocOk : Bool) (src src2 p : Option bitmap)
    (g : Option FILE) (n : Nat)
    (hcreate : create (some blank) (toUInt32 width) (toUInt32 height) mallocOk
      = (report.REPORT_NULL, src))
    (hloop : tileLoop rnd width height square maxvar (rnd 0 % (UCHAR_MAX + 1))
        (rnd 1 % (UCHAR_MAX + 1)) (rnd 2 % (UCHAR_MAX + 1)) fuel 0 (3, src)
      = Exec.done (report.REPORT_NULL, n, src2))
    (hsave : save src2 (some f) = some (report.REPORT_NULL, p, g)) :
    generate fuel width height square maxvar rnd (some f) mallocOk true
      = Exec.done (EXIT_SUCCESS, g, []) := by
  simp only [generate, hcreate, hloop, hsave]
  simp

theorem bitmap_data_eta (B : bitmap) (d : List Nat) (hd : B.data = some d) :
    { B with data := some d } = B := by
  cases B
  simp only at hd
  simp [hd]

theorem header_offsets (b : bitmap) (d : List Nat) (hft : b.ftype = [0x42, 0x4D]) :
    ((((headerFields b).map fun cn => cn.1.take cn.2).flatten ++ d).take 2 = [0x42, 0x4D]) ∧
    (((((headerFields b).map fun cn => cn.1.take cn.2).flatten ++ d).drop 0x12).take 4
      = bytesLE 4 (toUInt32 b.iwidth)) ∧
    (((((headerFields b).map fun cn => cn.1.take cn.2).flatten ++ d).drop 0x16).take 4
      = bytesLE 4 (toUInt32 b.iheight)) := by
  simp [headerFields, bytesLE, hft]

/-- The tile loops of `main` on the buffer that `create` returns, when no 32-bit
computation wraps: they end, without error exactly when the tile size divides the
width and the height. -/
theorem tileLoop_created (rnd : Nat → Nat) (w h s maxvar red green blue fuel : Nat)
    (hw1 : 1 ≤ w) (hh1 : 1 ≤ h) (hs1 : 1 ≤ s) (hm1 : 1 ≤ maxvar) (hw : 3 * w + 3 < 2 ^ 31)
    (hsz : h * stride w < 2 ^ 32) (hbw : w + s < 2 ^ 31) (hbh : h + s < 2 ^ 31)
    (hfuel : w + h + 3 ≤ fuel) :
    ∃ B n e,
      create (some blank) w h true = (report.REPORT_NULL, some B) ∧
      Canvas w h B ∧ B.isize = h * stride w ∧ B.ftype = [0x42, 0x4D] ∧
      toUInt32 B.iwidth = w ∧ toUInt32 B.iheight = h ∧
      tileLoop rnd (w : Int) (h : Int) (s : Int) maxvar red green blue fuel 0 (3, some B)
        = Exec.done (if s ∣ w ∧ s ∣ h then report.REPORT_NULL else report.REPORT_ARGS, n,
            some { B with data := some e }) ∧
      e.length = h * stride w ∧
      (¬ (s ∣ w ∧ s ∣ h) →
        ∃ iA jA e1 var, s ∣ iA ∧ iA < w ∧ s ∣ jA ∧ jA < h ∧
          ¬ (iA + s ≤ w ∧ jA + s ≤ h) ∧
          (∀ i2 j2, s ∣ i2 → s ∣ j2 → i2 < w → j2 < h →
            (i2 < iA ∨ (i2 = iA ∧ j2 < jA)) → i2 + s ≤ w ∧ j2 + s ≤ h) ∧
          draw (some { B with data := some e1 }) iA jA s
              (add red var) (add blue var) (add green var)
            = some (report.REPORT_ARGS, some { B with data := some e })) := by
  obtain ⟨B, hB, hdata, hc, hisize, hft, hwid, hhei⟩ :=
    canvas_create_data blank w h hw (by omega) hsz
  obtain ⟨n2, e2, hloop, hlen, hab⟩ :=
    tileLoop_sheet rnd w h s maxvar red green blue B _ hc hdata hs1 hm1 hbw hbh hh1
      w 0 3 (List.replicate (h * stride w) 0xff) fuel (by omega) (by omega) (by omega)
      (Nat.dvd_zero s) rfl
  have hiff : (0 = w ∨ (s ∣ w ∧ s ∣ h)) ↔ (s ∣ w ∧ s ∣ h) := by
    constructor
    · rintro (h1 | h1)
      · omega
      · exact h1
    · exact Or.inr
  simp only [hiff] at hloop hab
  rw [bitmap_data_eta B _ hdata] at hloop
  rw [List.length_replicate] at hlen
  refine ⟨B, n2, e2, hB, hc, hisize, hft, hwid, hhei, hloop, hlen, ?_⟩
  intro hno
  obtain ⟨iA, jA, e1, var, -, g2, g3, g4, g5, g6, g7, g8⟩ := hab hno
  exact ⟨iA, jA, e1, var, g2, g3, g4, g5, g6,
    fun i2 j2 a1 a2 a3 a4 a5 => g7 i2 j2 a1 a2 (Nat.zero_le i2) a3 a4 a5, g8⟩

theorem main_args (fuel w h s maxvar : Nat) (rnd : Nat → Nat) (dst : Option FILE)
    (mallocOk fcloseOk : Bool) (hw : w < 2 ^ 31) (hh : h < 2 ^ 31) (hs : s < 2 ^ 31)
    (hm : maxvar < 256) :
    main fuel (some ((w : Int), (h : Int), (s : Int), (maxvar : Int))) rnd dst mallocOk
        fcloseOk
      = generate fuel (w : Int) (h : Int) (s : Int) maxvar rnd dst mallocOk fcloseOk := by
  have h1 : toInt32 (toUInt32 (w : Int)) = (w : Int) := by
    rw [toUInt32_natCast w (by omega), toInt32_of_small w hw]
  have h2 : toInt32 (toUInt32 (h : Int)) = (h : Int) := by
    rw [toUInt32_natCast h (by omega), toInt32_of_small h hh]
  have h3 : toInt32 (toUInt32 (s : Int)) = (s : Int) := by
    rw [toUInt32_natCast s (by omega), toInt32_of_small s hs]
  have h4 : ((maxvar : Int) % 256).toNat = maxvar := by omega
  simp only [main, h1, h2, h3, h4]

/-- Claim C12 fails as stated in its general form: for width 1, height `2 ^ 30` and
tile size 1 (positive, multiples of the tile size) and variation 1, `create`
allocates 0 bytes (the size wraps) and the first tile fill stores outside the
block: the execution is undefined, no file of `54 + height * stride` bytes is
produced. -/
theorem C12_generate_counterexample :
    ((1 : Nat) ∣ 1 ∧ (1 : Nat) ∣ 1073741824) ∧
      (create (some blank) 1 1073741824 true).2.bind bitmap.data = some [] ∧
      draw (create (some blank) 1 1073741824 true).2 0 0 1 0 0 0 = none ∧
      main 5 (some (1, 1073741824, 1, 1)) (fun _ => 0) (some openStream) true true
        = Exec.undefined := by
  refine ⟨by decide, by decide, by decide, rfl⟩

/-- Claim C12, amended: for every random source, with width = 100, height = 100,
tile size 10 and variation 30 (the defaults of `main`), and more generally for
every positive width and height that are multiples of a tile size `≥ 1`, with
`1 ≤ maxvar ≤ 255`, such that `3 * w + 3 < 2 ^ 31` and `h * stride w < 2 ^ 32`, and
every output stream that accepts every write: with enough fuel the tile loops end
without error, `save` succeeds, `main` returns `EXIT_SUCCESS`, and the output is
exactly `54 + h * stride w` bytes (30054 for 100 by 100), starts with `'B','M'` and
holds the width and the height as little-endian 32-bit values at offsets `0x12`
and `0x16`. -/
theorem C12_generate_output (rnd : Nat → Nat) (w h s maxvar fuel : Nat) (f : FILE)
    (hw1 : 1 ≤ w) (hh1 : 1 ≤ h) (hs1 : 1 ≤ s) (hm1 : 1 ≤ maxvar) (hm2 : maxvar < 256)
    (hdw : s ∣ w) (hdh : s ∣ h) (hw : 3 * w + 3 < 2 ^ 31) (hsz : h * stride w < 2 ^ 32)
    (hf : ∀ i, f.short i = none) (hfuel : w + h + 3 ≤ fuel) :
    ∃ g out n q,
      tileLoop (rnd) ((w : Nat) : Int) ((h : Nat) : Int) ((s : Nat) : Int) maxvar
          ((rnd) 0 % (UCHAR_MAX + 1)) ((rnd) 1 % (UCHAR_MAX + 1))
          ((rnd) 2 % (UCHAR_MAX + 1)) fuel 0 (3, (create (some blank) w h true).2)
        = Exec.done (report.REPORT_NULL, n, q) ∧
      main fuel (some (((w : Nat) : Int), ((h : Nat) : Int), ((s : Nat) : Int),
          ((maxvar : Nat) : Int))) (rnd) (some (f)) true true
        = Exec.done (EXIT_SUCCESS, some g, []) ∧
      g.bytes = (f).bytes ++ out ∧
      out.length = 54 + h * stride w ∧
      out.take 2 = [0x42, 0x4D] ∧
      (out.drop 0x12).take 4 = bytesLE 4 w ∧
      (out.drop 0x16).take 4 = bytesLE 4 h ∧
      main fuel none (rnd) (some (f)) true true
        = main fuel (some (((100 : Nat) : Int), ((100 : Nat) : Int), ((10 : Nat) : Int),
            ((30 : Nat) : Int))) (rnd) (some (f)) true true ∧
      54 + 100 * stride 100 = 30054 := by
  have hsw : s ≤ w := Nat.le_of_dvd (by omega) hdw
  have hsh : s ≤ h := Nat.le_of_dvd (by omega) hdh
  have hstr : 3 * w ≤ stride w := by
    rw [stride_eq_of_small w (by omega)]
    omega
  have hstr4 : 4 ≤ stride w := by
    rw [stride_eq_of_small w (by omega)]
    omega
  have hh : h < 2 ^ 30 := by
    have h1 : h * 4 ≤ h * stride w := Nat.mul_le_mul_left h hstr4
    omega
  obtain ⟨B, n, e, hB, hc, hisize, hft, hwid, hhei, hloop, hlen, -⟩ :=
    tileLoop_created rnd w h s maxvar (rnd 0 % (UCHAR_MAX + 1)) (rnd 1 % (UCHAR_MAX + 1))
      (rnd 2 % (UCHAR_MAX + 1)) fuel hw1 hh1 hs1 hm1 hw hsz (by omega) (by omega) hfuel
  rw [if_pos ⟨hdw, hdh⟩] at hloop
  have hpos : 0 < h * stride w := Nat.mul_pos (by omega) (by omega)
  have hsave := save_full { B with data := some e } f e rfl
    (by rw [hlen]; exact hisize.symm) (by show B.isize ≠ 0; omega) hf
  have hcreate : create (some blank) (toUInt32 (w : Int)) (toUInt32 (h : Int)) true
      = (report.REPORT_NULL, some B) := by
    rw [toUInt32_natCast w (by omega), toUInt32_natCast h (by omega)]
    exact hB
  have hgen := generate_saved fuel (w : Int) (h : Int) (s : Int) maxvar rnd f true _ _ _ _ n
    hcreate hloop hsave
  have hoff := header_offsets { B with data := some e } e hft
  have hH := header_flat_length { B with data := some e }
    (by show B.ftype.length = 2; rw [hft]; rfl)
  refine ⟨{ f with
      bytes := f.bytes ++
        ((headerFields { B with data := some e }).map fun cn => cn.1.take cn.2).flatten ++ e,
      calls := f.calls + 16 },
    ((headerFields { B with data := some e }).map fun cn => cn.1.take cn.2).flatten ++ e,
    n, some { B with data := some e }, ?_, ?_, ?_, ?_, hoff.1, ?_, ?_, rfl, by decide⟩
  · rw [hB]
    exact hloop
  · rw [main_args fuel w h s maxvar rnd _ true true (by omega) (by omega) (by omega) hm2]
    exact hgen
  · exact List.append_assoc _ _ _
  · rw [List.length_append, hH, hlen]
  · rw [hoff.2.1]
    show bytesLE 4 (toUInt32 B.iwidth) = _
    rw [hwid]
  · rw [hoff.2.2]
    show bytesLE 4 (toUInt32 B.iheight) = _
    rw [hhei]

theorem C12_generate_output_witness :
    ∃ g out n q,
      tileLoop (fun k => 7 * k + 1) ((100 : Nat) : Int) ((100 : Nat) : Int) ((10 : Nat) : Int) 30
          ((fun k => 7 * k + 1) 0 % (UCHAR_MAX + 1)) ((fun k => 7 * k + 1) 1 % (UCHAR_MAX + 1))
          ((fun k => 7 * k + 1) 2 % (UCHAR_MAX + 1)) 203 0 (3, (create (some blank) 100 100 true).2)
        = Exec.done (report.REPORT_NULL, n, q) ∧
      main 203 (some (((100 : Nat) : Int), ((100 : Nat) : Int), ((10 : Nat) : Int),
          ((30 : Nat) : Int))) (fun k => 7 * k + 1) (some (openStream)) true true
        = Exec.done (EXIT_SUCCESS, some g, []) ∧
      g.bytes = (openStream).bytes ++ out ∧
      out.length = 54 + 100 * stride 100 ∧
      out.take 2 = [0x42, 0x4D] ∧
      (out.drop 0x12).take 4 = bytesLE 4 100 ∧
      (out.drop 0x16).take 4 = bytesLE 4 100 ∧
      main 203 none (fun k => 7 * k + 1) (some (openStream)) true true
        = main 203 (some (((100 : Nat) : Int), ((100 : Nat) : Int), ((10 : Nat) : Int),
            ((30 : Nat) : Int))) (fun k => 7 * k + 1) (some (openStream)) true true ∧
      54 + 100 * stride 100 = 30054 :=
  C12_generate_output (fun k => 7 * k + 1) 100 100 10 30 203 openStream (by decide)
    (by decide) (by decide) (by decide) (by decide) (by decide) (by decide) (by decide)
    (by decide) (fun _ => rfl) (by decide)

/-! ## The tile loops as a run over the list of tiles -/

theorem lt_ceil_div (s h b : Nat) (hs : 1 ≤ s) : b < (h + s - 1) / s ↔ s * b < h := by
  rw [Nat.lt_iff_add_one_le, Nat.le_div_iff_mul_le (by omega), Nat.add_mul, Nat.one_mul,
    Nat.mul_comm b s]
  omega

theorem mem_tiles (w h s : Nat) (hs : 1 ≤ s) (t : Nat × Nat) :
    t ∈ tiles w h s ↔ (s ∣ t.1 ∧ s ∣ t.2 ∧ t.1 < w ∧ t.2 < h) := by
  simp only [tiles, List.mem_flatMap, List.mem_map, List.mem_range]
  constructor
  · rintro ⟨a, ha, b, hb, rfl⟩
    exact ⟨Nat.dvd_mul_right s a, Nat.dvd_mul_right s b, (lt_ceil_div s w a hs).mp ha,
      (lt_ceil_div s h b hs).mp hb⟩
  · rintro ⟨⟨a, ha⟩, ⟨b, hb⟩, h1, h2⟩
    refine ⟨a, (lt_ceil_div s w a hs).mpr (by rw [← ha]; exact h1), b,
      (lt_ceil_div s h b hs).mpr (by rw [← hb]; exact h2), ?_⟩
    rw [← ha, ← hb]

theorem runTiles_nil (rnd : Nat → Nat) (maxvar red green blue s : Nat)
    (st : Nat × Option bitmap) :
    runTiles rnd maxvar red green blue s [] st = some (report.REPORT_NULL, st.1, st.2) := rfl

theorem runTiles_stop (rnd : Nat → Nat) (maxvar red green blue s : Nat) (t : Nat × Nat)
    (ts : List (Nat × Nat)) (n : Nat) (src src2 : Option bitmap) (error : report)
    (hdraw : draw src t.1 t.2 s (add red (rnd n % maxvar % (UCHAR_MAX + 1)))
        (add blue (rnd n % maxvar % (UCHAR_MAX + 1)))
        (add green (rnd n % maxvar % (UCHAR_MAX + 1))) = some (error, src2))
    (herr : error ≠ report.REPORT_NULL) :
    runTiles rnd maxvar red green blue s (t :: ts) (n, src) = some (error, n + 1, src2) := by
  rw [runTiles]
  simp only [hdraw]
  rw [if_pos herr]

theorem runTiles_next (rnd : Nat → Nat) (maxvar red green blue s : Nat) (t : Nat × Nat)
    (ts : List (Nat × Nat)) (n : Nat) (src src2 : Option bitmap)
    (hdraw : draw src t.1 t.2 s (add red (rnd n % maxvar % (UCHAR_MAX + 1)))
        (add blue (rnd n % maxvar % (UCHAR_MAX + 1)))
        (add green (rnd n % maxvar % (UCHAR_MAX + 1))) = some (report.REPORT_NULL, src2)) :
    runTiles rnd maxvar red green blue s (t :: ts) (n, src)
      = runTiles rnd maxvar red green blue s ts (n + 1, src2) := by
  rw [runTiles]
  simp only [hdraw, ne_eq, not_true_eq_false, if_false]

/-- A run over a list that is the concatenation of two lists: the second part is
run only when the first part ends with `REPORT_NULL`. -/
theorem runTiles_append (rnd : Nat → Nat) (maxvar red green blue s : Nat)
    (l1 l2 : List (Nat × Nat)) (st : Nat × Option bitmap) :
    runTiles rnd maxvar red green blue s (l1 ++ l2) st =
      match runTiles rnd maxvar red green blue s l1 st with
      | none => none
      | some (error, n, src) =>
        if error ≠ report.REPORT_NULL then some (error, n, src)
        else runTiles rnd maxvar red green blue s l2 (n, src) := by
  induction l1 generalizing st with
  | nil =>
    obtain ⟨n, src⟩ := st
    simp [runTiles]
  | cons t ts ih =>
    obtain ⟨n, src⟩ := st
    simp only [List.cons_append, runTiles]
    cases hd : draw src t.1 t.2 s (add red (rnd n % maxvar % (UCHAR_MAX + 1)))
        (add blue (rnd n % maxvar % (UCHAR_MAX + 1)))
        (add green (rnd n % maxvar % (UCHAR_MAX + 1))) with
    | none => rfl
    | some r =>
      obtain ⟨error, src2⟩ := r
      simp only []
      by_cases herr : error ≠ report.REPORT_NULL
      · rw [if_pos herr, if_pos herr]
        simp only [herr, ne_eq, not_false_eq_true, if_true]
      · rw [if_neg herr, if_neg herr]
        exact ih (n + 1, src2)

theorem draw_tile_nat (w h s i j red green blue : Nat) (B : bitmap) (d0 e : List Nat)
    (hB : Canvas w h B) (hd0 : B.data = some d0) (he : e.length = d0.length)
    (hs : 1 ≤ s) (hi : i + s < 2 ^ 31) (hj : j + s < 2 ^ 31) :
    ∃ e2, draw (some { B with data := some e }) i j s red green blue
        = some (if i + s ≤ w ∧ j + s ≤ h then report.REPORT_NULL else report.REPORT_ARGS,
            some { B with data := some e2 }) ∧
      e2.length = d0.length := by
  obtain ⟨e2, h1, h2⟩ := draw_tile w h s i j red green blue B d0 e hB hd0 he hs hi hj
  rw [toUInt32_natCast i (by omega), toUInt32_natCast j (by omega),
    toUInt32_natCast s (by omega)] at h1
  exact ⟨e2, h1, h2⟩

/-- The inner loop of `main` from the row `s * b` is the run over the remaining
tiles of the column, in order. -/
theorem tileRow_tiles (rnd : Nat → Nat) (w h s maxvar red green blue i : Nat) (B : bitmap)
    (d0 : List Nat) (hB : Canvas w h B) (hd0 : B.data = some d0) (hs : 1 ≤ s)
    (hmax : 1 ≤ maxvar) (hbw : w + s < 2 ^ 31) (hbh : h + s < 2 ^ 31) (hi : i < w) :
    ∀ (c b n : Nat) (e : List Nat) (fuel : Nat), b + c = (h + s - 1) / s → c < fuel →
      e.length = d0.length →
      ∃ r n2 e2,
        runTiles rnd maxvar red green blue s ((List.range' b c).map fun b2 => (i, s * b2))
            (n, some { B with data := some e })
          = some (r, n2, some { B with data := some e2 }) ∧
        tileRow rnd (h : Int) (s : Int) maxvar red green blue (i : Int) fuel
            ((s * b : Nat) : Int) (n, some { B with data := some e })
          = Exec.done (r, n2, some { B with data := some e2 }) ∧
        e2.length = d0.length := by
  intro c
  induction c with
  | zero =>
    intro b n e fuel hbc hfuel he
    obtain ⟨f, rfl⟩ : ∃ f, fuel = f + 1 := ⟨fuel - 1, by omega⟩
    have hnot : ¬ s * b < h := fun hx => by
      have := (lt_ceil_div s h b hs).mpr hx
      omega
    refine ⟨report.REPORT_NULL, n, e, rfl, ?_, he⟩
    exact tileRow_done rnd _ _ maxvar red green blue _ _ f n _
      (by rw [Int.ofNat_lt]; exact hnot)
  | succ c ih =>
    intro b n e fuel hbc hfuel he
    obtain ⟨f, rfl⟩ : ∃ f, fuel = f + 1 := ⟨fuel - 1, by omega⟩
    have hlt : s * b < h := (lt_ceil_div s h b hs).mp (by omega)
    obtain ⟨e2, hdraw2, hlen2⟩ := draw_tile w h s i (s * b)
      (add red (rnd n % maxvar % (UCHAR_MAX + 1)))
      (add blue (rnd n % maxvar % (UCHAR_MAX + 1)))
      (add green (rnd n % maxvar % (UCHAR_MAX + 1))) B d0 e hB hd0 he hs
      (by omega) (by omega)
    have hdraw := hdraw2
    rw [toUInt32_natCast i (by omega), toUInt32_natCast (s * b) (by omega),
      toUInt32_natCast s (by omega)] at hdraw
    rw [List.range'_succ, List.map_cons]
    by_cases hfit : i + s ≤ w ∧ s * b + s ≤ h
    · rw [if_pos hfit] at hdraw hdraw2
      obtain ⟨r, n2, e3, hrun, hrow, hlen3⟩ := ih (b + 1) (n + 1) e2 f (by omega) (by omega)
        hlen2
      refine ⟨r, n2, e3, ?_, ?_, hlen3⟩
      · rw [runTiles_next rnd maxvar red green blue s (i, s * b) _ n _ _ hdraw]
        exact hrun
      · have hcast : ((s * b : Nat) : Int) + (s : Int) = ((s * (b + 1) : Nat) : Int) := by
          rw [Nat.mul_add, Nat.mul_one]
          push_cast
          rfl
        rw [tileRow_next rnd _ _ maxvar red green blue _ _ ((s * (b + 1) : Nat) : Int) f n
          _ _ (by rw [Int.ofNat_lt]; exact hlt) (by omega) hdraw2
          (by rw [hcast]; exact int32_natCast (s * (b + 1)) (by
            rw [Nat.mul_add, Nat.mul_one]; omega))]
        exact hrow
    · rw [if_neg hfit] at hdraw hdraw2
      refine ⟨report.REPORT_ARGS, n + 1, e2, ?_, ?_, hlen2⟩
      · exact runTiles_stop rnd maxvar red green blue s (i, s * b) _ n _ _ _ hdraw
          (by decide)
      · exact tileRow_abort rnd _ _ maxvar red green blue _ _ f n _ _ _
          (by rw [Int.ofNat_lt]; exact hlt) (by omega) hdraw2 (by decide)

/-- The outer loop of `main` from the column `s * a` is the run over the tiles of
the remaining columns, in the order of the loops. -/
theorem tileLoop_tiles (rnd : Nat → Nat) (w h s maxvar red green blue : Nat) (B : bitmap)
    (d0 : List Nat) (hB : Canvas w h B) (hd0 : B.data = some d0) (hs : 1 ≤ s)
    (hmax : 1 ≤ maxvar) (hbw : w + s < 2 ^ 31) (hbh : h + s < 2 ^ 31) :
    ∀ (c a n : Nat) (e : List Nat) (fuel : Nat), a + c = (w + s - 1) / s →
      c + (h + s - 1) / s + 1 < fuel → e.length = d0.length →
      ∃ r n2 e2,
        runTiles rnd maxvar red green blue s
            ((List.range' a c).flatMap fun a2 =>
              (List.range ((h + s - 1) / s)).map fun b2 => (s * a2, s * b2))
            (n, some { B with data := some e })
          = some (r, n2, some { B with data := some e2 }) ∧
        tileLoop rnd (w : Int) (h : Int) (s : Int) maxvar red green blue fuel
            ((s * a : Nat) : Int) (n, some { B with data := some e })
          = Exec.done (r, n2, some { B with data := some e2 }) ∧
        e2.length = d0.length := by
  intro c
  induction c with
  | zero =>
    intro a n e fuel hac hfuel he
    obtain ⟨f, rfl⟩ : ∃ f, fuel = f + 1 := ⟨fuel - 1, by
      have := Nat.zero_le ((h + s - 1) / s)
      omega⟩
    have hnot : ¬ s * a < w := fun hx => by
      have := (lt_ceil_div s w a hs).mpr hx
      omega
    refine ⟨report.REPORT_NULL, n, e, rfl, ?_, he⟩
    exact tileLoop_done rnd _ _ _ maxvar red green blue _ f _
      (by rw [Int.ofNat_lt]; exact hnot)
  | succ c ih =>
    intro a n e fuel hac hfuel he
    have hq := Nat.zero_le ((h + s - 1) / s)
    obtain ⟨f, rfl⟩ : ∃ f, fuel = f + 1 := ⟨fuel - 1, by omega⟩
    have hlt : s * a < w := (lt_ceil_div s w a hs).mp (by omega)
    obtain ⟨r1, n1, e1, hrun1, hrow1, hlen1⟩ :=
      tileRow_tiles rnd w h s maxvar red green blue (s * a) B d0 hB hd0 hs hmax hbw hbh hlt
        ((h + s - 1) / s) 0 n e f (Nat.zero_add _) (by omega) he
    rw [← List.range_eq_range'] at hrun1
    have hzero : ((s * 0 : Nat) : Int) = 0 := by simp
    rw [hzero] at hrow1
    rw [List.range'_succ, List.flatMap_cons, runTiles_append, hrun1]
    by_cases herr : r1 ≠ report.REPORT_NULL
    · refine ⟨r1, n1, e1, ?_, ?_, hlen1⟩
      · simp only [herr, ne_eq, not_false_eq_true, if_true]
      · exact tileLoop_abort rnd _ _ _ maxvar red green blue _ f n1 _ _ _
          (by rw [Int.ofNat_lt]; exact hlt) hrow1 herr
    · have hr1 : r1 = report.REPORT_NULL := by
        by_contra hx
        exact herr hx
      subst hr1
      obtain ⟨r, n2, e2, hrun, hloop, hlen2⟩ := ih (a + 1) n1 e1 f (by omega) (by omega) hlen1
      refine ⟨r, n2, e2, ?_, ?_, hlen2⟩
      · simp only [ne_eq, not_true_eq_false, if_false]
        exact hrun
      · have hcast : ((s * a : Nat) : Int) + (s : Int) = ((s * (a + 1) : Nat) : Int) := by
          rw [Nat.mul_add, Nat.mul_one]
          push_cast
          rfl
        rw [tileLoop_next rnd _ _ _ maxvar red green blue _ ((s * (a + 1) : Nat) : Int) f n1
          _ _ (by rw [Int.ofNat_lt]; exact hlt) hrow1
          (by rw [hcast]; exact int32_natCast (s * (a + 1)) (by
            rw [Nat.mul_add, Nat.mul_one]; omega))]
        exact hloop

/-- A run over tiles on a canvas: either every tile fits and every `draw` returns
`REPORT_NULL`, or the run stops at the first tile that does not fit, on which
`draw` returns `REPORT_ARGS`, after the draws on all the tiles before it. -/
theorem runTiles_canvas (rnd : Nat → Nat) (w h s maxvar red green blue : Nat) (B : bitmap)
    (d0 : List Nat) (hB : Canvas w h B) (hd0 : B.data = some d0) (hs : 1 ≤ s) :
    ∀ (l : List (Nat × Nat)) (n : Nat) (e : List Nat),
      (∀ t ∈ l, t.1 + s < 2 ^ 31 ∧ t.2 + s < 2 ^ 31) → e.length = d0.length →
      (∃ e2, runTiles rnd maxvar red green blue s l (n, some { B with data := some e })
            = some (report.REPORT_NULL, n + l.length, some { B with data := some e2 }) ∧
          ∀ t ∈ l, t.1 + s ≤ w ∧ t.2 + s ≤ h) ∨
      (∃ k iA jA e1 q, l[k]? = some (iA, jA) ∧
          (∀ t ∈ l.take k, t.1 + s ≤ w ∧ t.2 + s ≤ h) ∧
          ¬ (iA + s ≤ w ∧ jA + s ≤ h) ∧
          runTiles rnd maxvar red green blue s (l.take k) (n, some { B with data := some e })
            = some (report.REPORT_NULL, n + k, some { B with data := some e1 }) ∧
          draw (some { B with data := some e1 }) iA jA s
              (add red (rnd (n + k) % maxvar % (UCHAR_MAX + 1)))
              (add blue (rnd (n + k) % maxvar % (UCHAR_MAX + 1)))
              (add green (rnd (n + k) % maxvar % (UCHAR_MAX + 1)))
            = some (report.REPORT_ARGS, q) ∧
          runTiles rnd maxvar red green blue s l (n, some { B with data := some e })
            = some (report.REPORT_ARGS, n + k + 1, q)) := by
  intro l
  induction l with
  | nil =>
    intro n e _ _
    exact Or.inl ⟨e, rfl, fun t ht => absurd ht (List.not_mem_nil t)⟩
  | cons t ts ih =>
    intro n e hb he
    obtain ⟨ti, tj⟩ := t
    have hbt := hb (ti, tj) (List.mem_cons_self _ _)
    obtain ⟨e2, hdraw, hlen2⟩ := draw_tile_nat w h s ti tj
      (add red (rnd n % maxvar % (UCHAR_MAX + 1)))
      (add blue (rnd n % maxvar % (UCHAR_MAX + 1)))
      (add green (rnd n % maxvar % (UCHAR_MAX + 1))) B d0 e hB hd0 he hs hbt.1 hbt.2
    by_cases hfit : ti + s ≤ w ∧ tj + s ≤ h
    · rw [if_pos hfit] at hdraw
      have hnext := runTiles_next rnd maxvar red green blue s (ti, tj) ts n _ _ hdraw
      rcases ih (n + 1) e2 (fun t ht => hb t (List.mem_cons_of_mem _ ht)) hlen2 with
        ⟨e3, hrun, hall⟩ | ⟨k, iA, jA, e1, q, hk, hpre, hbad, hrun1, hdr, hrun⟩
      · left
        refine ⟨e3, ?_, ?_⟩
        · rw [hnext, hrun, List.length_cons]
          congr 3
          omega
        · intro t ht
          rcases List.mem_cons.mp ht with h1 | h1
          · rw [h1]; exact hfit
          · exact hall t h1
      · right
        refine ⟨k + 1, iA, jA, e1, q, ?_, ?_, hbad, ?_, ?_, ?_⟩
        · rw [List.getElem?_cons_succ]; exact hk
        · intro t ht
          rw [List.take_succ_cons] at ht
          rcases List.mem_cons.mp ht with h1 | h1
          · rw [h1]; exact hfit
          · exact hpre t h1
        · rw [List.take_succ_cons,
            runTiles_next rnd maxvar red green blue s (ti, tj) _ n _ _ hdraw, hrun1]
          congr 3
          omega
        · rw [show n + (k + 1) = n + 1 + k by omega]
          exact hdr
        · rw [hnext, hrun]
          congr 3
          omega
    · rw [if_neg hfit] at hdraw
      right
      refine ⟨0, ti, tj, e, _, List.getElem?_cons_zero, fun t ht => absurd ht (by simp), hfit,
        rfl, hdraw, ?_⟩
      exact runTiles_stop rnd maxvar red green blue s (ti, tj) ts n _ _ _ hdraw (by decide)

/-- The list of tiles is in the order of the loops: sorted by `i`, then by `j`. -/
theorem tiles_sorted (w h s : Nat) (hs : 1 ≤ s) :
    (tiles w h s).Pairwise fun t u => t.1 < u.1 ∨ (t.1 = u.1 ∧ t.2 < u.2) := by
  unfold tiles
  rw [List.pairwise_flatMap]
  constructor
  · intro a _
    rw [List.pairwise_map]
    refine (List.pairwise_lt_range _).imp ?_
    intro b c hbc
    exact Or.inr ⟨rfl, Nat.mul_lt_mul_of_pos_left hbc (by omega)⟩
  · refine (List.pairwise_lt_range _).imp ?_
    intro a c hac x hx y hy
    simp only [List.mem_map, List.mem_range] at hx hy
    obtain ⟨b, -, rfl⟩ := hx
    obtain ⟨d, -, rfl⟩ := hy
    exact Or.inl (Nat.mul_lt_mul_of_pos_left hac (by omega))

/-- The tiles before the one of index `k` are the tiles with a smaller `i`, or the
same `i` and a smaller `j`. -/
theorem tiles_before (w h s : Nat) (hs : 1 ≤ s) (k iA jA : Nat)
    (hk : (tiles w h s)[k]? = some (iA, jA)) (t : Nat × Nat) :
    t ∈ (tiles w h s).take k ↔
      (t ∈ tiles w h s ∧ (t.1 < iA ∨ (t.1 = iA ∧ t.2 < jA))) := by
  have hsorted := tiles_sorted w h s hs
  obtain ⟨hlt, hget⟩ := List.getElem?_eq_some.mp hk
  have hsplit : tiles w h s
      = (tiles w h s).take k ++ (iA, jA) :: (tiles w h s).drop (k + 1) := by
    rw [← hget, ← List.drop_eq_getElem_cons hlt, List.take_append_drop]
  rw [hsplit, List.pairwise_append, List.pairwise_cons] at hsorted
  obtain ⟨-, ⟨hafter, -⟩, hbefore⟩ := hsorted
  constructor
  · intro ht
    exact ⟨List.mem_of_mem_take ht, hbefore t ht (iA, jA) (List.mem_cons_self _ _)⟩
  · rintro ⟨ht, hlex⟩
    rw [hsplit, List.mem_append, List.mem_cons] at ht
    rcases ht with ht | ht | ht
    · exact ht
    · subst ht
      simp at hlex
    · have := hafter t ht
      simp only at this
      omega

/-- An argument `256` is converted to the `unsigned char` `0`, and `rand() % maxvar`
is then undefined at the first tile. -/
theorem main_variation_256 :
    main 3 (some (1, 1, 1, 256)) (fun _ => 0) (some openStream) true true
      = Exec.undefined := by
  rfl

theorem ceil_div_le (w s : Nat) (hs : 1 ≤ s) : (w + s - 1) / s ≤ w := by
  have h1 : (w + s - 1) / s < w + 1 := by
    rw [Nat.div_lt_iff_lt_mul (by omega), Nat.add_mul, Nat.one_mul]
    have := Nat.le_mul_of_pos_right w (by omega : 0 < s)
    omega
  omega

/-- The tile loops of `main` on the buffer that `create` returns, when no 32-bit
computation wraps: their result is the one of the run over the list of tiles, which
either goes through every tile or stops at the first tile that does not fit. -/
theorem tileLoop_run (rnd : Nat → Nat) (w h s maxvar red green blue fuel : Nat)
    (hw1 : 1 ≤ w) (hh1 : 1 ≤ h) (hs1 : 1 ≤ s) (hm1 : 1 ≤ maxvar) (hw : 3 * w + 3 < 2 ^ 31)
    (hsz : h * stride w < 2 ^ 32) (hbw : w + s < 2 ^ 31) (hbh : h + s < 2 ^ 31)
    (hfuel : w + h + 3 ≤ fuel) :
    ∃ B n q,
      create (some blank) w h true = (report.REPORT_NULL, some B) ∧
      tileLoop rnd (w : Int) (h : Int) (s : Int) maxvar red green blue fuel 0 (3, some B)
        = Exec.done (if s ∣ w ∧ s ∣ h then report.REPORT_NULL else report.REPORT_ARGS, n, q) ∧
      runTiles rnd maxvar red green blue s (tiles w h s) (3, some B)
        = some (if s ∣ w ∧ s ∣ h then report.REPORT_NULL else report.REPORT_ARGS, n, q) ∧
      ((n = 3 + (tiles w h s).length ∧ (s ∣ w ∧ s ∣ h) ∧
          ∀ t ∈ tiles w h s, t.1 + s ≤ w ∧ t.2 + s ≤ h) ∨
        (¬ (s ∣ w ∧ s ∣ h) ∧
          ∃ k iA jA p1, (tiles w h s)[k]? = some (iA, jA) ∧
            (∀ t ∈ (tiles w h s).take k, t.1 + s ≤ w ∧ t.2 + s ≤ h) ∧
            ¬ (iA + s ≤ w ∧ jA + s ≤ h) ∧
            runTiles rnd maxvar red green blue s ((tiles w h s).take k) (3, some B)
              = some (report.REPORT_NULL, 3 + k, p1) ∧
            draw p1 iA jA s (add red (rnd (3 + k) % maxvar % (UCHAR_MAX + 1)))
                (add blue (rnd (3 + k) % maxvar % (UCHAR_MAX + 1)))
                (add green (rnd (3 + k) % maxvar % (UCHAR_MAX + 1)))
              = some (report.REPORT_ARGS, q) ∧
            n = 3 + k + 1)) := by
  obtain ⟨B, hB, hdata, hc, -, -, -, -⟩ := canvas_create_data blank w h hw (by omega) hsz
  have heta := bitmap_data_eta B _ hdata
  -- the result of the loops, from the arithmetic of the tile size
  obtain ⟨n2, e2, hloop, -, -⟩ :=
    tileLoop_sheet rnd w h s maxvar red green blue B _ hc hdata hs1 hm1 hbw hbh hh1
      w 0 3 (List.replicate (h * stride w) 0xff) fuel (by omega) (by omega) (by omega)
      (Nat.dvd_zero s) rfl
  have hiff : (0 = w ∨ (s ∣ w ∧ s ∣ h)) ↔ (s ∣ w ∧ s ∣ h) := by
    constructor
    · rintro (h1 | h1)
      · omega
      · exact h1
    · exact Or.inr
  simp only [hiff] at hloop
  rw [heta] at hloop
  -- the loops as a run over the tiles
  have hcw := ceil_div_le w s hs1
  have hch := ceil_div_le h s hs1
  obtain ⟨r, n3, e3, hrun, hloop3, -⟩ :=
    tileLoop_tiles rnd w h s maxvar red green blue B _ hc hdata hs1 hm1 hbw hbh
      ((w + s - 1) / s) 0 3 (List.replicate (h * stride w) 0xff) fuel (Nat.zero_add _)
      (by omega) rfl
  rw [← List.range_eq_range', heta] at hrun
  have hzero : ((s * 0 : Nat) : Int) = 0 := by simp
  rw [hzero, heta] at hloop3
  have hsame := hloop.symm.trans hloop3
  simp only [Exec.done.injEq, Prod.mk.injEq] at hsame
  obtain ⟨hr, hn, hq⟩ := hsame
  subst hr hn
  have hrun2 : runTiles rnd maxvar red green blue s (tiles w h s) (3, some B)
      = some (if s ∣ w ∧ s ∣ h then report.REPORT_NULL else report.REPORT_ARGS, n2,
          some { B with data := some e3 }) := hrun
  rw [hq] at hloop
  refine ⟨B, n2, _, hB, hloop, hrun2, ?_⟩
  -- where the run stops
  have hbound : ∀ t ∈ tiles w h s, t.1 + s < 2 ^ 31 ∧ t.2 + s < 2 ^ 31 := by
    intro t ht
    have := (mem_tiles w h s hs1 t).mp ht
    omega
  rcases runTiles_canvas rnd w h s maxvar red green blue B _ hc hdata hs1 (tiles w h s) 3
      (List.replicate (h * stride w) 0xff) hbound rfl with
    ⟨e4, hrun4, hall⟩ | ⟨k, iA, jA, e1, q, hk, hpre, hbad, hrun1, hdr, hrun4⟩
  · rw [heta, hrun2] at hrun4
    simp only [Option.some.injEq, Prod.mk.injEq] at hrun4
    obtain ⟨h1, h2, -⟩ := hrun4
    left
    refine ⟨h2, ?_, hall⟩
    by_contra hno
    rw [if_neg hno] at h1
    exact absurd h1 (by decide)
  · rw [heta, hrun2] at hrun4
    rw [heta] at hrun1
    simp only [Option.some.injEq, Prod.mk.injEq] at hrun4
    obtain ⟨h1, h2, h3⟩ := hrun4
    right
    refine ⟨?_, k, iA, jA, _, hk, hpre, hbad, hrun1, ?_, h2⟩
    · intro hyes
      rw [if_pos hyes] at h1
      exact absurd h1 (by decide)
    · rw [h3]
      exact hdr

/-- Claim C18: for every random source, every value `maxvar ≥ 1` of the variable of
`main` and every width, height and tile size `≥ 1` such that no 32-bit computation
overflows (`3 * w + 3 < 2 ^ 31`, `h * stride w < 2 ^ 32`, `w + s < 2 ^ 31`,
`h + s < 2 ^ 31`), the tile loops of `main` end (with fuel `≥ w + h + 3`) and their
result is the one of the run over the tiles in loop order: without error if and
only if the tile size divides both the width and the height; otherwise the loops
draw, with `REPORT_NULL`, every tile before the first tile `(iA, jA)` whose last cell
`(iA + s - 1, jA + s - 1)` is outside the canvas (the tiles before it are those
with a smaller `i`, or the same `i` and a smaller `j`, and their last cells are
inside), `draw` returns `REPORT_ARGS` on that tile, on the canvas as the earlier
tiles left it and with the variation of that `rand()` call, and the loops stop
there with that canvas; `main` returns `EXIT_FAILURE` after printing that error
(also from an argument `maxvar < 256`, which the conversion to `unsigned char`
keeps), and `save` is not called: the output stream is left as it was. -/
theorem C18_tile_loop (rnd : Nat → Nat) (w h s maxvar fuel : Nat) (f : FILE)
    (fcloseOk : Bool) (hw1 : 1 ≤ w) (hh1 : 1 ≤ h) (hs1 : 1 ≤ s) (hm1 : 1 ≤ maxvar)
    (hw : 3 * w + 3 < 2 ^ 31) (hsz : h * stride w < 2 ^ 32) (hbw : w + s < 2 ^ 31)
    (hbh : h + s < 2 ^ 31) (hfuel : w + h + 3 ≤ fuel) :
    ∃ B err n q,
      create (some blank) w h true = (report.REPORT_NULL, some B) ∧
      tileLoop rnd (w : Int) (h : Int) (s : Int) maxvar
          (rnd 0 % (UCHAR_MAX + 1)) (rnd 1 % (UCHAR_MAX + 1))
          (rnd 2 % (UCHAR_MAX + 1)) fuel 0 (3, some B)
        = Exec.done (err, n, q) ∧
      runTiles rnd maxvar (rnd 0 % (UCHAR_MAX + 1)) (rnd 1 % (UCHAR_MAX + 1))
          (rnd 2 % (UCHAR_MAX + 1)) s (tiles w h s) (3, some B)
        = some (err, n, q) ∧
      (∀ t, t ∈ tiles w h s ↔ (s ∣ t.1 ∧ s ∣ t.2 ∧ t.1 < w ∧ t.2 < h)) ∧
      (err = report.REPORT_NULL ↔ (s ∣ w ∧ s ∣ h)) ∧
      ((s ∣ w ∧ s ∣ h) →
        (∀ t ∈ tiles w h s, t.1 + (s - 1) < w ∧ t.2 + (s - 1) < h) ∧
        n = 3 + (tiles w h s).length) ∧
      (¬ (s ∣ w ∧ s ∣ h) →
        err = report.REPORT_ARGS ∧
        (∃ k iA jA p1, (tiles w h s)[k]? = some (iA, jA) ∧
          (∀ t, t ∈ (tiles w h s).take k ↔
            (t ∈ tiles w h s ∧ (t.1 < iA ∨ (t.1 = iA ∧ t.2 < jA)))) ∧
          (∀ t ∈ (tiles w h s).take k,
            t.1 + (s - 1) < w ∧ t.2 + (s - 1) < h) ∧
          ¬ (iA + (s - 1) < w ∧ jA + (s - 1) < h) ∧
          runTiles rnd maxvar (rnd 0 % (UCHAR_MAX + 1)) (rnd 1 % (UCHAR_MAX + 1))
              (rnd 2 % (UCHAR_MAX + 1)) s ((tiles w h s).take k) (3, some B)
            = some (report.REPORT_NULL, 3 + k, p1) ∧
          draw p1 iA jA s
              (add (rnd 0 % (UCHAR_MAX + 1)) (rnd (3 + k) % maxvar % (UCHAR_MAX + 1)))
              (add (rnd 2 % (UCHAR_MAX + 1)) (rnd (3 + k) % maxvar % (UCHAR_MAX + 1)))
              (add (rnd 1 % (UCHAR_MAX + 1)) (rnd (3 + k) % maxvar % (UCHAR_MAX + 1)))
            = some (report.REPORT_ARGS, q) ∧
          n = 3 + k + 1) ∧
        generate fuel (w : Int) (h : Int) (s : Int) maxvar
            rnd (some f) true fcloseOk
          = Exec.done (EXIT_FAILURE, some (f), [report.REPORT_ARGS]) ∧
        (maxvar < 256 →
          main fuel (some ((w : Int), (h : Int), (s : Int),
              (maxvar : Int))) rnd (some f) true fcloseOk
            = Exec.done (EXIT_FAILURE, some (f), [report.REPORT_ARGS]))) := by
  obtain ⟨B, n, q, hB, hloop, hrun, hcases⟩ :=
    tileLoop_run rnd w h s maxvar (rnd 0 % (UCHAR_MAX + 1)) (rnd 1 % (UCHAR_MAX + 1))
      (rnd 2 % (UCHAR_MAX + 1)) fuel hw1 hh1 hs1 hm1 hw hsz hbw hbh hfuel
  have hlast : ∀ a b : Nat,
      (a + (s - 1) < w ∧ b + (s - 1) < h) ↔ (a + s ≤ w ∧ b + s ≤ h) := by
    intro a b
    omega
  refine ⟨B, _, n, q, hB, hloop, hrun, mem_tiles w h s hs1, ?_, ?_, ?_⟩
  · by_cases hd : s ∣ w ∧ s ∣ h
    · rw [if_pos hd]
      exact ⟨fun _ => hd, fun _ => rfl⟩
    · rw [if_neg hd]
      exact ⟨fun hx => absurd hx (by decide), fun hx => absurd hx hd⟩
  · intro hd
    rcases hcases with ⟨h1, -, h3⟩ | ⟨h1, -⟩
    · exact ⟨fun t ht => (hlast t.1 t.2).mpr (h3 t ht), h1⟩
    · exact absurd hd h1
  · intro hd
    rw [if_neg hd] at hloop ⊢
    rcases hcases with ⟨-, h2, -⟩ | ⟨-, k, iA, jA, p1, g1, g2, g3, g4, g5, g6⟩
    · exact absurd h2 hd
    · have hcreate : create (some blank) (toUInt32 (w : Int)) (toUInt32 (h : Int)) true
          = (report.REPORT_NULL, some B) := by
        rw [toUInt32_natCast w (by omega), toUInt32_natCast h (by omega)]
        exact hB
      have hgen := generate_abort fuel (w : Int) (h : Int) (s : Int) maxvar rnd f true
        fcloseOk _ _ _ n hcreate hloop (by decide)
      refine ⟨rfl, ⟨k, iA, jA, p1, g1, tiles_before w h s hs1 k iA jA g1,
        fun t ht => (hlast t.1 t.2).mpr (g2 t ht),
        fun hx => g3 ((hlast iA jA).mp hx), g4, g5, g6⟩, hgen, ?_⟩
      intro hm
      rw [main_args fuel w h s maxvar rnd _ true fcloseOk (by omega) (by omega) (by omega) hm]
      exact hgen

theorem C18_tile_loop_witness :
    ∃ B err n q,
      create (some blank) 100 100 true = (report.REPORT_NULL, some B) ∧
      tileLoop (fun k => 7 * k + 1) ((100 : Nat) : Int) ((100 : Nat) : Int) ((30 : Nat) : Int) 30
          ((fun k => 7 * k + 1) 0 % (UCHAR_MAX + 1))
          ((fun k => 7 * k + 1) 1 % (UCHAR_MAX + 1))
          ((fun k => 7 * k + 1) 2 % (UCHAR_MAX + 1)) 203 0 (3, some B)
        = Exec.done (err, n, q) ∧
      runTiles (fun k => 7 * k + 1) 30 ((fun k => 7 * k + 1) 0 % (UCHAR_MAX + 1))
          ((fun k => 7 * k + 1) 1 % (UCHAR_MAX + 1))
          ((fun k => 7 * k + 1) 2 % (UCHAR_MAX + 1)) 30 (tiles 100 100 30) (3, some B)
        = some (err, n, q) ∧
      (∀ t, t ∈ tiles 100 100 30 ↔ (30 ∣ t.1 ∧ 30 ∣ t.2 ∧ t.1 < 100 ∧ t.2 < 100)) ∧
      (err = report.REPORT_NULL ↔ (30 ∣ 100 ∧ 30 ∣ 100)) ∧
      ((30 ∣ 100 ∧ 30 ∣ 100) →
        (∀ t ∈ tiles 100 100 30, t.1 + (30 - 1) < 100 ∧ t.2 + (30 - 1) < 100) ∧
        n = 3 + (tiles 100 100 30).length) ∧
      (¬ (30 ∣ 100 ∧ 30 ∣ 100) →
        err = report.REPORT_ARGS ∧
        (∃ k iA jA p1, (tiles 100 100 30)[k]? = some (iA, jA) ∧
          (∀ t, t ∈ (tiles 100 100 30).take k ↔
            (t ∈ tiles 100 100 30 ∧ (t.1 < iA ∨ (t.1 = iA ∧ t.2 < jA)))) ∧
          (∀ t ∈ (tiles 100 100 30).take k,
            t.1 + (30 - 1) < 100 ∧ t.2 + (30 - 1) < 100) ∧
          ¬ (iA + (30 - 1) < 100 ∧ jA + (30 - 1) < 100) ∧
          runTiles (fun k => 7 * k + 1) 30 ((fun k => 7 * k + 1) 0 % (UCHAR_MAX + 1))
          ((fun k => 7 * k + 1) 1 % (UCHAR_MAX + 1))
          ((fun k => 7 * k + 1) 2 % (UCHAR_MAX + 1)) 30 ((tiles 100 100 30).take k)
              (3, some B)
            = some (report.REPORT_NULL, 3 + k, p1) ∧
          draw p1 iA jA 30
              (add ((fun k => 7 * k + 1) 0 % (UCHAR_MAX + 1))
                ((fun k => 7 * k + 1) (3 + k) % 30 % (UCHAR_MAX + 1)))
              (add ((fun k => 7 * k + 1) 2 % (UCHAR_MAX + 1))
                ((fun k => 7 * k + 1) (3 + k) % 30 % (UCHAR_MAX + 1)))
              (add ((fun k => 7 * k + 1) 1 % (UCHAR_MAX + 1))
                ((fun k => 7 * k + 1) (3 + k) % 30 % (UCHAR_MAX + 1)))
            = some (report.REPORT_ARGS, q) ∧
          n = 3 + k + 1) ∧
        generate 203 ((100 : Nat) : Int) ((100 : Nat) : Int) ((30 : Nat) : Int) 30
            (fun k => 7 * k + 1) (some (openStream)) true true
          = Exec.done (EXIT_FAILURE, some (openStream), [report.REPORT_ARGS]) ∧
        (30 < 256 →
          main 203 (some (((100 : Nat) : Int), ((100 : Nat) : Int), ((30 : Nat) : Int),
              ((30 : Nat) : Int))) (fun k => 7 * k + 1) (some (openStream)) true true
            = Exec.done (EXIT_FAILURE, some (openStream), [report.REPORT_ARGS]))) :=
  C18_tile_loop (fun k => 7 * k + 1) 100 100 30 30 203 openStream true (by decide)
    (by decide) (by decide) (by decide) (by decide) (by decide) (by decide) (by decide)
    (by decide)

end Ravatar
